import Mathlib

/-!
Shallow embedding of the STCalc 1D compressible-flow Euler solver
(`src/js/euler-solver.js` and the time-integrator / factory classes of
`src/js/xt-mixture.js`) and verification of the specification claims.

Conventions of the embedding:
* JS `Float64Array` buffers become functions `ℕ → K` over an ordered field
  `K` (`ℚ` where claims are tested concretely, `ℝ` where the code takes a
  square root); indices beyond the allocated length hold `0`, matching the
  zero-initialised typed arrays, and every write loop is guarded by the same
  bound the JS loop uses.
* Exact field arithmetic stands in for IEEE doubles: the claims under test
  are stated by the specification in exact-arithmetic terms.
* The conservative buffers keep the flat layout of the source
  (`U[3*i + k]`, flux `F[3*i + k]` at interface `i`).
* `Array.prototype.sort((a,b) => a-b)` is modelled by
  `List.insertionSort (· ≤ ·)`: on a list of numbers every correct
  ascending sort yields the same value list.
* JS division by zero yields `Infinity`/`NaN`; in the field model `x / 0 = 0`.
  No claim below depends on a value produced by a zero division: wherever a
  divisor matters the proofs establish it is nonzero.
-/

namespace STCalc

/-- Universal gas constant 8314.51 J/(kmol·K), `this.Ru` in `euler-solver.js`. -/
def Ru {K : Type} [LinearOrderedField K] : K := 831451 / 100

/-- A configured gas slab as consumed by `EulerSolver.initialize`. -/
structure Slab (K : Type) where
  gasId : String
  gamma : K
  mw : K
  pressure : K
  temperature : K
  length : K

/-- Immutable per-region gas properties (`this.regions` / `this.materialProperties`). -/
structure Region (K : Type) where
  gamma : K
  mw : K
  gasId : String

/-- A Lagrangian tracer: current position and (time, position) trajectory. -/
structure Tracer (K : Type) where
  x : K
  trajectory : List (K × K)

/-- One x-t snapshot as pushed by `storeXTData` (full primitive fields plus
per-cell gas properties, copied out of the live buffers). -/
structure Snapshot (K : Type) where
  t : K
  rho : ℕ → K
  u : ℕ → K
  p : ℕ → K
  T : ℕ → K
  gamma : ℕ → K
  mw : ℕ → K
  gasId : ℕ → String

/-- The three interface-tracking methods (`config.interfaceMethod`). -/
inductive IMethod
  | sharp
  | ghost
  | mixed
deriving DecidableEq

/-- The two concrete time integrators produced by `IntegratorFactory`. -/
inductive IntegratorKind
  | RK2
  | SSP
deriving DecidableEq

/-- `IntegratorFactory.create` from `xt-mixture.js`: returns the integrator and
a flag recording whether the `console.warn` branch (unknown name, silently
defaulting to RK2) fired.  The JS `switch` has no error branch. -/
def IntegratorFactory.create (name : String) : IntegratorKind × Bool :=
  if name = "RK2" then (IntegratorKind.RK2, false)
  else if name = "SSP" then (IntegratorKind.SSP, false)
  else (IntegratorKind.RK2, true)

/-- The full mutable state of an `EulerSolver` instance.  Buffers are modelled
as total functions that are `0` outside the allocated range. -/
structure SolverState (K : Type) where
  nx : ℕ
  cfl : K
  finalTime : K
  interfaceMethod : IMethod
  integrator : IntegratorKind
  x : ℕ → K
  dx : K
  U : ℕ → K
  Un : ℕ → K
  Uk : ℕ → K
  rho : ℕ → K
  u : ℕ → K
  p : ℕ → K
  T : ℕ → K
  gamma : ℕ → K
  mw : ℕ → K
  gasId : ℕ → String
  t : K
  dt : K
  timeSteps : ℕ
  xtData : List (Snapshot K)
  xtInterval : K
  nextXTStore : K
  tracers : List (Tracer K)
  regions : List (Region K)
  numMaterials : ℕ
  materialFractions : ℕ → K
  materialProperties : List (Region K)
  interfaceCells : Set ℕ

variable {K : Type} [LinearOrderedField K]

/-- The `EulerSolver` constructor: zeroed buffers, `t = dt = 0`,
`nextXTStore = 0`, integrator chosen through `IntegratorFactory.create`. -/
def EulerSolver.new (nx : ℕ) (cfl finalTime xtInterval : K)
    (interfaceMethod : IMethod) (integratorName : String) : SolverState K :=
  { nx := nx
    cfl := cfl
    finalTime := finalTime
    interfaceMethod := interfaceMethod
    integrator := (IntegratorFactory.create integratorName).1
    x := fun _ => 0
    dx := 0
    U := fun _ => 0
    Un := fun _ => 0
    Uk := fun _ => 0
    rho := fun _ => 0
    u := fun _ => 0
    p := fun _ => 0
    T := fun _ => 0
    gamma := fun _ => 0
    mw := fun _ => 0
    gasId := fun _ => ""
    t := 0
    dt := 0
    timeSteps := 0
    xtData := []
    xtInterval := xtInterval
    nextXTStore := 0
    tracers := []
    regions := []
    numMaterials := 0
    materialFractions := fun _ => 0
    materialProperties := []
    interfaceCells := ∅ }

/-- The inner `while` of the cell-assignment scan in `initialize`: advance
`(currentPos, slabIndex)` while `slabIndex < slabs.length - 1` and the cell
center `c` lies at or beyond the end of the current slab.  The fuel argument
(`slabs.length` at the call site) bounds the at most `length - 1` increments. -/
def locateSlab (slabs : List (Slab K)) (c : K) : ℕ → K → ℕ → K × ℕ
  | 0, pos, idx => (pos, idx)
  | fuel + 1, pos, idx =>
    if idx + 1 < slabs.length ∧ pos + (slabs.getD idx ⟨"", 0, 0, 0, 0, 0⟩).length ≤ c
    then locateSlab slabs c fuel (pos + (slabs.getD idx ⟨"", 0, 0, 0, 0, 0⟩).length) (idx + 1)
    else (pos, idx)

/-- The per-cell slab assignment loop of `initialize`: for each cell center in
order, carry `(currentPos, slabIndex)` across cells exactly as the JS loop
does and record the chosen slab. -/
def assignCells (slabs : List (Slab K)) : List K → K → ℕ → List (Slab K)
  | [], _, _ => []
  | c :: cs, pos, idx =>
    let next := locateSlab slabs c slabs.length pos idx
    slabs.getD next.2 ⟨"", 0, 0, 0, 0, 0⟩ :: assignCells slabs cs next.1 next.2

/-- The tracer-creation loop of `initialize`: one tracer at each internal slab
boundary (cumulative length), none after the final slab. -/
def tracerInit : List (Slab K) → K → List (Tracer K)
  | [], _ => []
  | [_], _ => []
  | sl :: rest, pos =>
    let p := pos + sl.length
    { x := p, trajectory := [(0, p)] } :: tracerInit rest p

/-- Sum of the lengths of the first `m` slabs (the running `tempPos` of the
material-fraction initialisation loop). -/
def prefixLength (slabs : List (Slab K)) (m : ℕ) : K :=
  ((slabs.take m).map (·.length)).sum

/-- `updatePrimitives` from `euler-solver.js`: recompute `rho`, `u`, `p`, `T`
for every cell `i < nx` from the conservative buffer `U` and the per-cell
`gamma`/`mw`.  No validity check of any kind is performed: the function is
total and the conservative density is copied verbatim. -/
def updatePrimitives (s : SolverState K) : SolverState K :=
  let rho' := fun i => if i < s.nx then s.U (3 * i) else s.rho i
  let u' := fun i => if i < s.nx then s.U (3 * i + 1) / s.U (3 * i) else s.u i
  let p' := fun i =>
    if i < s.nx then
      (s.gamma i - 1) * (s.U (3 * i + 2) - 1 / 2 * s.U (3 * i) * u' i * u' i)
    else s.p i
  let T' := fun i =>
    if i < s.nx then p' i / (s.U (3 * i) * (Ru / s.mw i)) else s.T i
  { s with rho := rho', u := u', p := p', T := T' }

/-- `storeXTData`: append a full snapshot of the primitive fields and gas
properties to the ordered x-t list. -/
def storeXTData (s : SolverState K) : SolverState K :=
  { s with xtData := s.xtData ++
      [{ t := s.t, rho := s.rho, u := s.u, p := s.p, T := s.T,
         gamma := s.gamma, mw := s.mw, gasId := s.gasId }] }

/-- The state assembled by `EulerSolver.initialize` before its final
`updatePrimitives` and `storeXTData` calls: grid, per-cell gas properties and
conservative state, regions, tracers, and the mixed-cell tables. -/
def initAssembled (s : SolverState K) (slabs : List (Slab K)) : SolverState K :=
  let totalLength := slabs.foldl (fun acc sl => acc + sl.length) 0
  let dx := totalLength / (s.nx : K)
  let xArr := fun i : ℕ => if i < s.nx then ((i : K) + 1 / 2) * dx else 0
  let centers := (List.range s.nx).map fun i : ℕ => ((i : K) + 1 / 2) * dx
  let assigned := assignCells slabs centers 0 0
  let cellSlab := fun i : ℕ => assigned.getD i ⟨"", 0, 0, 0, 0, 0⟩
  let gamma' := fun i : ℕ => if i < s.nx then (cellSlab i).gamma else 0
  let mw' := fun i : ℕ => if i < s.nx then (cellSlab i).mw else 0
  let gasId' := fun i : ℕ => if i < s.nx then (cellSlab i).gasId else ""
  let U' := fun j : ℕ =>
    if j < 3 * s.nx then
      let sl := cellSlab (j / 3)
      let R := Ru / sl.mw
      let rho0 := sl.pressure / (R * sl.temperature)
      let u0 : K := 0
      let E0 := sl.pressure / (sl.gamma - 1) + 1 / 2 * rho0 * u0 * u0
      match j % 3 with
      | 0 => rho0
      | 1 => rho0 * u0
      | _ => E0
    else 0
  let regions' : List (Region K) :=
    slabs.map fun sl => { gamma := sl.gamma, mw := sl.mw, gasId := sl.gasId }
  let tracers' := tracerInit slabs 0
  let numMat := if s.interfaceMethod = IMethod.mixed then slabs.length else 0
  let fractions' := fun k : ℕ =>
    if s.interfaceMethod = IMethod.mixed ∧ slabs.length ≠ 0 ∧
        k < s.nx * slabs.length then
      let i := k / slabs.length
      let m := k % slabs.length
      let cellLeft := (i : K) * dx
      let cellRight := ((i : K) + 1) * dx
      let slabLeft := prefixLength slabs m
      let slabRight := slabLeft + (slabs.getD m ⟨"", 0, 0, 0, 0, 0⟩).length
      let overlap := max 0 (min cellRight slabRight - max cellLeft slabLeft)
      overlap / dx
    else 0
  let matProps' : List (Region K) :=
    if s.interfaceMethod = IMethod.mixed then
      slabs.map fun sl => { gamma := sl.gamma, mw := sl.mw, gasId := sl.gasId }
    else []
  { s with dx := dx, x := xArr, gamma := gamma', mw := mw', gasId := gasId',
           U := U', regions := regions', tracers := tracers',
           numMaterials := numMat, materialFractions := fractions',
           materialProperties := matProps' }

/-- The state built by a completing run of `EulerSolver.initialize`:
the assembled state, then `updatePrimitives` and the initial snapshot. -/
def initState (s : SolverState K) (slabs : List (Slab K)) : SolverState K :=
  storeXTData (updatePrimitives (initAssembled s slabs))

/-- `EulerSolver.initialize`.  The JS method performs no input validation; the
only way it can fail is the `TypeError` raised by reading `slab.gamma` from
`undefined` when the slab list is empty and at least one cell exists, modelled
here by `none`.  On every other input it completes with `initState`. -/
def initSolver (s : SolverState K) (slabs : List (Slab K)) : Option (SolverState K) :=
  if slabs.isEmpty ∧ 0 < s.nx then none
  else some (initState s slabs)

/-- The region-lookup loop shared by the sharp and ghost branches of
`updateGasProperties`: starting from `regionIndex = 0`, walk the sorted tracer
positions and set `regionIndex = j + 1` while the cell center exceeds
position `j`, breaking at the first failure.  This is the length of the
longest prefix of positions strictly below `c`. -/
def regionScan (c : K) : List K → ℕ
  | [] => 0
  | pos :: rest => if pos < c then regionScan c rest + 1 else 0

/-- `Math.max(0, Math.min(regions.length - 1, regionIndex))`, computed over ℤ
exactly as the JS number arithmetic does (an empty region list clamps to 0). -/
def clampRegion (nRegions regionIndex : ℕ) : ℕ :=
  (max 0 (min ((nRegions : ℤ) - 1) (regionIndex : ℤ))).toNat

/-- The per-cell body of the region-assignment loop, identical in the sharp
and ghost branches of `updateGasProperties` (the JS duplicates this text in
both branches verbatim). -/
def regionAssign (s : SolverState K) (positions : List K) (i : ℕ) : Region K :=
  s.regions.getD (clampRegion s.regions.length (regionScan (s.x i) positions))
    ⟨0, 0, ""⟩

/-- `identifyInterfaceCells`: mark every cell within 1.5 cell widths of some
tracer (distance measured to the cell's left edge, right edge, or center,
whichever is smallest).  Only the `interfaceCells` set is written. -/
def identifyInterfaceCells (s : SolverState K) : SolverState K :=
  { s with interfaceCells :=
      { i | i < s.nx ∧ ∃ tx ∈ s.tracers.map (·.x),
            min (min |tx - (i : K) * s.dx| |tx - ((i : K) + 1) * s.dx|)
              |tx - s.x i| < 3 / 2 * s.dx } }

/-- `computeMixtureProperties` for one cell: pressure-weighted `1/(γ-1)`
average, mass-weighted molecular weight, dominant-material gas id, with the
fallback to material 0 when the fraction total is at most `1e-10`. -/
def computeMixtureProperties (s : SolverState K) (cellIdx : ℕ) : Region K :=
  let matProp := fun m : ℕ => s.materialProperties.getD m ⟨0, 0, ""⟩
  let alpha := fun m : ℕ => s.materialFractions (cellIdx * s.numMaterials + m)
  let gammaMixInv := ∑ m ∈ Finset.range s.numMaterials, alpha m / ((matProp m).gamma - 1)
  let mwMix := ∑ m ∈ Finset.range s.numMaterials, alpha m * (matProp m).mw
  let totalFraction := ∑ m ∈ Finset.range s.numMaterials, alpha m
  let dominant := ((List.range s.numMaterials).foldl
    (fun acc m => if acc.1 < alpha m then (alpha m, m) else acc) ((0 : K), 0)).2
  if 1 / 10 ^ 10 < totalFraction then
    { gamma := 1 + 1 / (gammaMixInv / totalFraction),
      mw := mwMix / totalFraction,
      gasId := (matProp dominant).gasId }
  else
    { gamma := 1 + 1 / (1 / ((matProp 0).gamma - 1)),
      mw := (matProp 0).mw,
      gasId := (matProp 0).gasId }

/-- `updateGasProperties`: refresh the per-cell `gamma`/`mw`/`gasId` arrays
according to the active interface method.  The ghost branch first rebuilds
`interfaceCells` and then performs the same region assignment as the sharp
branch; the mixed branch derives mixture properties from volume fractions. -/
def updateGasProperties (s : SolverState K) : SolverState K :=
  match s.interfaceMethod with
  | IMethod.mixed =>
    { s with
      gamma := fun i => if i < s.nx then (computeMixtureProperties s i).gamma else s.gamma i
      mw := fun i => if i < s.nx then (computeMixtureProperties s i).mw else s.mw i
      gasId := fun i => if i < s.nx then (computeMixtureProperties s i).gasId else s.gasId i }
  | IMethod.ghost =>
    let s1 := identifyInterfaceCells s
    let positions := List.insertionSort (· ≤ ·) (s1.tracers.map (·.x))
    { s1 with
      gamma := fun i => if i < s1.nx then (regionAssign s1 positions i).gamma else s1.gamma i
      mw := fun i => if i < s1.nx then (regionAssign s1 positions i).mw else s1.mw i
      gasId := fun i => if i < s1.nx then (regionAssign s1 positions i).gasId else s1.gasId i }
  | IMethod.sharp =>
    let positions := List.insertionSort (· ≤ ·) (s.tracers.map (·.x))
    { s with
      gamma := fun i => if i < s.nx then (regionAssign s positions i).gamma else s.gamma i
      mw := fun i => if i < s.nx then (regionAssign s positions i).mw else s.mw i
      gasId := fun i => if i < s.nx then (regionAssign s positions i).gasId else s.gasId i }

/-- The material-fraction interface flux of `advectMaterialFractions`
(`this.materialFlux[i*numMaterials + m]`): zero at the two walls, upwind of
the averaged adjacent cell velocities in the interior. -/
def advectFlux (s : SolverState K) (fluxIdx : ℕ) : K :=
  if s.numMaterials = 0 then 0
  else
    let i := fluxIdx / s.numMaterials
    if i = 0 ∨ i = s.nx then 0
    else
      let m := fluxIdx % s.numMaterials
      let uInterface := 1 / 2 * (s.u (i - 1) + s.u i)
      if 0 < uInterface then uInterface * s.materialFractions ((i - 1) * s.numMaterials + m)
      else uInterface * s.materialFractions (i * s.numMaterials + m)

/-- The raw conservative fraction update of `advectMaterialFractions`
(`alphaNew` before the clamp). -/
def advectAlphaNew (s : SolverState K) (dt : K) (idx : ℕ) : K :=
  s.materialFractions idx -
    dt / s.dx * (advectFlux s (idx + s.numMaterials) - advectFlux s idx)

/-- The `[0,1]` clamp applied to `alphaNew` in `advectMaterialFractions`. -/
def advectClamped (s : SolverState K) (dt : K) (idx : ℕ) : K :=
  max 0 (min 1 (advectAlphaNew s dt idx))

/-- The clamped row total `totalAlpha` of row `i` in
`advectMaterialFractions`. -/
def advectRowSum (s : SolverState K) (dt : K) (i : ℕ) : K :=
  ∑ m ∈ Finset.range s.numMaterials, advectClamped s dt (i * s.numMaterials + m)

/-- `advectMaterialFractions`: first-order upwind advection of the material
volume fractions (zero flux at the domain walls), followed by the clamp to
`[0,1]` and row renormalisation, with the uniform `1/numMaterials` reset when
the clamped row sum is at most `1e-10`.  A no-op unless the interface method
is `mixed`. -/
def advectMaterialFractions (s : SolverState K) (dt : K) : SolverState K :=
  if s.interfaceMethod ≠ IMethod.mixed then s
  else
    { s with materialFractions := fun idx =>
        if idx < s.nx * s.numMaterials then
          if 1 / 10 ^ 10 < advectRowSum s dt (idx / s.numMaterials) then
            advectClamped s dt idx / advectRowSum s dt (idx / s.numMaterials)
          else 1 / (s.numMaterials : K)
        else s.materialFractions idx }

variable [FloorRing K]

/-- `updateTracers`: advance each tracer by forward Euler with the velocity of
the (clamped) cell containing it, clamp the new position to the domain, and
append the `(t, x)` sample. -/
def updateTracers (s : SolverState K) : SolverState K :=
  { s with tracers := s.tracers.map fun tr =>
      let cellIdx : ℤ := ⌊tr.x / s.dx⌋
      let clampedIdx := (max 0 (min ((s.nx : ℤ) - 1) cellIdx)).toNat
      let velocity := s.u clampedIdx
      let x1 := tr.x + velocity * s.dt
      let x2 := max 0 (min (s.x (s.nx - 1) + 1 / 2 * s.dx) x1)
      { x := x2, trajectory := tr.trajectory ++ [(s.t, x2)] } }

/-- `TimeIntegrator.calculateTimeStep`: CFL step `cfl·dx/maxWaveSpeed`, clamped
to not overshoot `finalTime`; when the next snapshot instant is ahead by less
than 2.5 candidate steps, shrink to an integer number of substeps that lands
exactly on it. -/
def calculateTimeStep (cfl dx t finalTime nextXTStore maxWaveSpeed : K) : K :=
  let dtCFL := cfl * dx / maxWaveSpeed
  let dt := if finalTime < t + dtCFL then finalTime - t else dtCFL
  let timeToNextViz := nextXTStore - t
  if 0 < timeToNextViz ∧ timeToNextViz < 5 / 2 * dt then
    let numSubsteps := max 1 ⌈timeToNextViz / dt⌉
    timeToNextViz / (numSubsteps : K)
  else dt

/-- `TimeIntegrator.postStep`: advance time and the step counter, recompute
primitives, advect tracers, refresh gas properties, and capture a snapshot
when within `1e-10` of (or past) the next scheduled instant. -/
def postStep (s : SolverState K) : SolverState K :=
  let s1 := { s with t := s.t + s.dt, timeSteps := s.timeSteps + 1 }
  let s2 := updatePrimitives s1
  let s3 := updateTracers s2
  let s4 := updateGasProperties s3
  if |s4.t - s4.nextXTStore| < 1 / 10 ^ 10 ∨ s4.nextXTStore < s4.t then
    let s5 := storeXTData s4
    { s5 with nextXTStore := s5.nextXTStore + s5.xtInterval }
  else s4

/-- The left Davis wave-speed bound `SL = min(uL − aL, uR − aR)` of
`hllcFlux`, with the primitive quantities recomputed from the interface
states exactly as the JS locals do. -/
noncomputable def davisSL (UL0 UL1 UL2 UR0 UR1 UR2 gammaL gammaR : ℝ) : ℝ :=
  let rhoL := UL0
  let uL := UL1 / rhoL
  let EL := UL2
  let pL := (gammaL - 1) * (EL - 1 / 2 * rhoL * uL * uL)
  let aL := Real.sqrt (gammaL * pL / rhoL)
  let rhoR := UR0
  let uR := UR1 / rhoR
  let ER := UR2
  let pR := (gammaR - 1) * (ER - 1 / 2 * rhoR * uR * uR)
  let aR := Real.sqrt (gammaR * pR / rhoR)
  min (uL - aL) (uR - aR)

/-- The right Davis wave-speed bound `SR = max(uL + aL, uR + aR)` of
`hllcFlux`. -/
noncomputable def davisSR (UL0 UL1 UL2 UR0 UR1 UR2 gammaL gammaR : ℝ) : ℝ :=
  let rhoL := UL0
  let uL := UL1 / rhoL
  let EL := UL2
  let pL := (gammaL - 1) * (EL - 1 / 2 * rhoL * uL * uL)
  let aL := Real.sqrt (gammaL * pL / rhoL)
  let rhoR := UR0
  let uR := UR1 / rhoR
  let ER := UR2
  let pR := (gammaR - 1) * (ER - 1 / 2 * rhoR * uR * uR)
  let aR := Real.sqrt (gammaR * pR / rhoR)
  max (uL + aL) (uR + aR)

/-- The contact-wave speed estimate `SStar` of `hllcFlux` (standard
momentum-flux balance; the denominator is the `rhoL(SL-uL) - rhoR(SR-uR)`
expression the JS divides by). -/
noncomputable def hllcSStar (UL0 UL1 UL2 UR0 UR1 UR2 gammaL gammaR : ℝ) : ℝ :=
  let rhoL := UL0
  let uL := UL1 / rhoL
  let EL := UL2
  let pL := (gammaL - 1) * (EL - 1 / 2 * rhoL * uL * uL)
  let rhoR := UR0
  let uR := UR1 / rhoR
  let ER := UR2
  let pR := (gammaR - 1) * (ER - 1 / 2 * rhoR * uR * uR)
  let SL := davisSL UL0 UL1 UL2 UR0 UR1 UR2 gammaL gammaR
  let SR := davisSR UL0 UL1 UL2 UR0 UR1 UR2 gammaL gammaR
  (pR - pL + rhoL * uL * (SL - uL) - rhoR * uR * (SR - uR)) /
    (rhoL * (SL - uL) - rhoR * (SR - uR))

/-- `hllcFlux` from `euler-solver.js`: Davis wave-speed bounds, contact speed
`SStar`, four-branch flux selection, and the returned `max(|SL|, |SR|)` wave
speed.  Output is `(f_mass, f_momentum, f_energy, waveSpeed)`.  (The JS also
computes enthalpies `HL`, `HR`; they are dead locals and are omitted.) -/
noncomputable def hllcFlux (UL0 UL1 UL2 UR0 UR1 UR2 gammaL gammaR : ℝ) :
    ℝ × ℝ × ℝ × ℝ :=
  let rhoL := UL0
  let uL := UL1 / rhoL
  let EL := UL2
  let pL := (gammaL - 1) * (EL - 1 / 2 * rhoL * uL * uL)
  let rhoR := UR0
  let uR := UR1 / rhoR
  let ER := UR2
  let pR := (gammaR - 1) * (ER - 1 / 2 * rhoR * uR * uR)
  let SL := davisSL UL0 UL1 UL2 UR0 UR1 UR2 gammaL gammaR
  let SR := davisSR UL0 UL1 UL2 UR0 UR1 UR2 gammaL gammaR
  let SStar := hllcSStar UL0 UL1 UL2 UR0 UR1 UR2 gammaL gammaR
  let f : ℝ × ℝ × ℝ :=
    if 0 ≤ SL then
      (rhoL * uL, rhoL * uL * uL + pL, uL * (EL + pL))
    else if 0 ≤ SStar then
      let pStar := pL + rhoL * (SL - uL) * (SStar - uL)
      let rhoStarL := rhoL * (SL - uL) / (SL - SStar)
      let EStarL := rhoStarL *
        (EL / rhoL + (SStar - uL) * (SStar + pL / (rhoL * (SL - uL))))
      (rhoStarL * SStar, rhoStarL * SStar * SStar + pStar, SStar * (EStarL + pStar))
    else if 0 ≤ SR then
      let pStar := pR + rhoR * (SR - uR) * (SStar - uR)
      let rhoStarR := rhoR * (SR - uR) / (SR - SStar)
      let EStarR := rhoStarR *
        (ER / rhoR + (SStar - uR) * (SStar + pR / (rhoR * (SR - uR))))
      (rhoStarR * SStar, rhoStarR * SStar * SStar + pStar, SStar * (EStarR + pStar))
    else
      (rhoR * uR, rhoR * uR * uR + pR, uR * (ER + pR))
  (f.1, f.2.1, f.2.2, max |SL| |SR|)

/-- The left/right states fed to `hllcFlux` at interface `i` by
`computeFluxes`: reflected ghost state (momentum sign flipped) at the two
walls, true neighbour cells in the interior.  Returns the flux triple and the
interface wave speed. -/
noncomputable def fluxTriple (nx : ℕ) (U gamma : ℕ → ℝ) (i : ℕ) : ℝ × ℝ × ℝ × ℝ :=
  if i = 0 then
    hllcFlux (U 0) (-U 1) (U 2) (U 0) (U 1) (U 2) (gamma 0) (gamma 0)
  else if i = nx then
    hllcFlux (U (3 * (nx - 1))) (U (3 * (nx - 1) + 1)) (U (3 * (nx - 1) + 2))
      (U (3 * (nx - 1))) (-U (3 * (nx - 1) + 1)) (U (3 * (nx - 1) + 2))
      (gamma (nx - 1)) (gamma (nx - 1))
  else
    hllcFlux (U (3 * (i - 1))) (U (3 * (i - 1) + 1)) (U (3 * (i - 1) + 2))
      (U (3 * i)) (U (3 * i + 1)) (U (3 * i + 2)) (gamma (i - 1)) (gamma i)

/-- The flat flux buffer written by `computeFluxes` (`this.flux[3*i + k]`). -/
noncomputable def fluxFlat (nx : ℕ) (U gamma : ℕ → ℝ) : ℕ → ℝ := fun j =>
  let f := fluxTriple nx U gamma (j / 3)
  match j % 3 with
  | 0 => f.1
  | 1 => f.2.1
  | _ => f.2.2.1

/-- The global maximum wave speed returned by `computeFluxes`: fold of
`max` over all `nx + 1` interfaces, starting from 0. -/
noncomputable def maxWaveSpeed (nx : ℕ) (U gamma : ℕ → ℝ) : ℝ :=
  (List.range (nx + 1)).foldl (fun acc i => max acc (fluxTriple nx U gamma i).2.2.2) 0

/-- `updateConservative`: the shared conservative finite-volume update
`Uout = U - (dt/dx)·(F_right - F_left)` in the flat buffer layout, written
only for the `3·nx` in-range entries. -/
def updateConservative {K : Type} [LinearOrderedField K] (nx : ℕ) (dx dt : K)
    (flux U : ℕ → K) : ℕ → K := fun j =>
  if j < 3 * nx then U j - dt / dx * (flux (j + 3) - flux j) else U j

/-- `solver.Uk` after RK stage 1 of `RK2Integrator.step`:
`U* = U^n + dt·L(U^n)`. -/
noncomputable def rk2Uk1 (nx : ℕ) (dx dt : ℝ) (gamma U0 : ℕ → ℝ) : ℕ → ℝ :=
  updateConservative nx dx dt (fluxFlat nx U0 gamma) U0

/-- `solver.U` after the copy loop of `RK2Integrator.step` (`U := Uk` for
`i < 3·nx`). -/
noncomputable def rk2U1 (nx : ℕ) (dx dt : ℝ) (gamma U0 : ℕ → ℝ) : ℕ → ℝ :=
  fun j => if j < 3 * nx then rk2Uk1 nx dx dt gamma U0 j else U0 j

/-- `solver.Uk` after RK stage 2 (`updateConservative(Uk, Uk, dt)` with the
flux recomputed from the predicted state now held in `solver.U`). -/
noncomputable def rk2Uk2 (nx : ℕ) (dx dt : ℝ) (gamma U0 : ℕ → ℝ) : ℕ → ℝ :=
  updateConservative nx dx dt (fluxFlat nx (rk2U1 nx dx dt gamma U0) gamma)
    (rk2Uk1 nx dx dt gamma U0)

/-- `solver.U` after the averaging loop of `RK2Integrator.step`
(`U := 0.5·Un + 0.5·Uk` for `i < 3·nx`; `Un` holds the pre-step `U`). -/
noncomputable def rk2U2 (nx : ℕ) (dx dt : ℝ) (gamma U0 : ℕ → ℝ) : ℕ → ℝ :=
  fun j => if j < 3 * nx then
    1 / 2 * U0 j + 1 / 2 * rk2Uk2 nx dx dt gamma U0 j
  else rk2U1 nx dx dt gamma U0 j

/-- `RK2Integrator.step`: forward-Euler predictor, flux recomputation at the
predicted state, averaging corrector, followed by the shared `postStep`. -/
noncomputable def rk2Step (s : SolverState ℝ) : SolverState ℝ :=
  let mws := maxWaveSpeed s.nx s.U s.gamma
  let dt := calculateTimeStep s.cfl s.dx s.t s.finalTime s.nextXTStore mws
  let Un1 := fun j => if j < 3 * s.nx then s.U j else s.Un j
  postStep { s with U := rk2U2 s.nx s.dx dt s.gamma s.U, Un := Un1,
                    Uk := rk2Uk2 s.nx s.dx dt s.gamma s.U, dt := dt }

/-- `solver.U` after SSP stage 1 (`U := U + 0.5·(Uk − U)` for `i < 3·nx`,
where `Uk = updateConservative(U, Uk, dt)`). -/
noncomputable def sspU1 (nx : ℕ) (dx dt : ℝ) (gamma U0 : ℕ → ℝ) : ℕ → ℝ :=
  fun j => if j < 3 * nx then
    U0 j + 1 / 2 * (updateConservative nx dx dt (fluxFlat nx U0 gamma) U0 j - U0 j)
  else U0 j

/-- `solver.U` after SSP stage 2 (same blend applied to the stage-1 state,
with the flux recomputed from it). -/
noncomputable def sspU2 (nx : ℕ) (dx dt : ℝ) (gamma U0 : ℕ → ℝ) : ℕ → ℝ :=
  fun j =>
    if j < 3 * nx then
      sspU1 nx dx dt gamma U0 j + 1 / 2 *
        (updateConservative nx dx dt (fluxFlat nx (sspU1 nx dx dt gamma U0) gamma)
          (sspU1 nx dx dt gamma U0) j - sspU1 nx dx dt gamma U0 j)
    else sspU1 nx dx dt gamma U0 j

/-- `solver.Uk` after the SSP stage-3 conservative update. -/
noncomputable def sspUk3 (nx : ℕ) (dx dt : ℝ) (gamma U0 : ℕ → ℝ) : ℕ → ℝ :=
  updateConservative nx dx dt (fluxFlat nx (sspU2 nx dx dt gamma U0) gamma)
    (sspU2 nx dx dt gamma U0)

/-- `solver.U` after SSP stage 3
(`U := (2/3)·Un + (1/6)·U + (1/6)·Uk` for `i < 3·nx`; in that range the
saved buffer `Un` holds the pre-step `U0`). -/
noncomputable def sspU3 (nx : ℕ) (dx dt : ℝ) (gamma U0 : ℕ → ℝ) : ℕ → ℝ :=
  fun j =>
    if j < 3 * nx then
      2 / 3 * U0 j + 1 / 6 * sspU2 nx dx dt gamma U0 j + 1 / 6 * sspUk3 nx dx dt gamma U0 j
    else sspU2 nx dx dt gamma U0 j

/-- `solver.Uk` after the SSP stage-4 conservative update. -/
noncomputable def sspUk4 (nx : ℕ) (dx dt : ℝ) (gamma U0 : ℕ → ℝ) : ℕ → ℝ :=
  updateConservative nx dx dt (fluxFlat nx (sspU3 nx dx dt gamma U0) gamma)
    (sspU3 nx dx dt gamma U0)

/-- `solver.U` after SSP stage 4 (`U := 0.5·U + 0.5·Uk` for `i < 3·nx`). -/
noncomputable def sspU4 (nx : ℕ) (dx dt : ℝ) (gamma U0 : ℕ → ℝ) : ℕ → ℝ :=
  fun j =>
    if j < 3 * nx then
      1 / 2 * sspU3 nx dx dt gamma U0 j + 1 / 2 * sspUk4 nx dx dt gamma U0 j
    else sspU3 nx dx dt gamma U0 j

/-- `SSPIntegrator.step`: the literal four-stage buffer arithmetic of the JS
(blend loops guarded by `i < 3·nx`, fluxes recomputed from the current `U`
before every stage), followed by the shared `postStep`. -/
noncomputable def sspStep (s : SolverState ℝ) : SolverState ℝ :=
  let mws := maxWaveSpeed s.nx s.U s.gamma
  let dt := calculateTimeStep s.cfl s.dx s.t s.finalTime s.nextXTStore mws
  let Un1 := fun j => if j < 3 * s.nx then s.U j else s.Un j
  postStep { s with U := sspU4 s.nx s.dx dt s.gamma s.U, Un := Un1,
                    Uk := sspUk4 s.nx s.dx dt s.gamma s.U, dt := dt }

/-- Dispatch on the integrator chosen at construction. -/
noncomputable def stepOf : IntegratorKind → SolverState ℝ → SolverState ℝ
  | IntegratorKind.RK2 => rk2Step
  | IntegratorKind.SSP => sspStep

/-- Spec-side operator for the refinement claim about the SSP scheme:
`L(V) = -(1/dx)·(F_right(V) - F_left(V))` on the flat buffer layout. -/
noncomputable def Lop (nx : ℕ) (dx : ℝ) (gamma V : ℕ → ℝ) : ℕ → ℝ :=
  fun j => -(1 / dx) * (fluxFlat nx V gamma (j + 3) - fluxFlat nx V gamma j)

/-- Spec-side Shu–Osher stage `U1 = Un + (dt/2)·L(Un)` (claim wording). -/
noncomputable def specSSPU1 (nx : ℕ) (dx dt : ℝ) (gamma U0 : ℕ → ℝ) : ℕ → ℝ :=
  fun j => U0 j + dt / 2 * Lop nx dx gamma U0 j

/-- Spec-side Shu–Osher stage `U2 = U1 + (dt/2)·L(U1)` with the flux
recomputed from the stage-1 state. -/
noncomputable def specSSPU2 (nx : ℕ) (dx dt : ℝ) (gamma U0 : ℕ → ℝ) : ℕ → ℝ :=
  fun j => specSSPU1 nx dx dt gamma U0 j +
    dt / 2 * Lop nx dx gamma (specSSPU1 nx dx dt gamma U0) j

/-- Spec-side Shu–Osher stage `U3 = (2/3)·Un + (1/3)·U2 + (dt/6)·L(U2)`. -/
noncomputable def specSSPU3 (nx : ℕ) (dx dt : ℝ) (gamma U0 : ℕ → ℝ) : ℕ → ℝ :=
  fun j => 2 / 3 * U0 j + 1 / 3 * specSSPU2 nx dx dt gamma U0 j +
    dt / 6 * Lop nx dx gamma (specSSPU2 nx dx dt gamma U0) j

/-- Spec-side Shu–Osher result `U_next = U3 + (dt/2)·L(U3)`. -/
noncomputable def specSSPNext (nx : ℕ) (dx dt : ℝ) (gamma U0 : ℕ → ℝ) : ℕ → ℝ :=
  fun j => specSSPU3 nx dx dt gamma U0 j +
    dt / 2 * Lop nx dx gamma (specSSPU3 nx dx dt gamma U0) j

/-- The `run` loop, fuel-indexed: while `t < finalTime`, delegate one step to
the integrator, read the wall clock (`Date.now()`, modelled by the oracle
`clock`), and emit a progress fraction when more than 100 ms have elapsed
since the last emission.  Returns the final state and the emitted progress
values.  The clock never feeds into the state update. -/
noncomputable def runLoop (clock : ℕ → ℤ) :
    ℕ → ℤ → ℕ → SolverState ℝ → SolverState ℝ × List ℝ
  | 0, _, _, s => (s, [])
  | fuel + 1, lastUpdate, k, s =>
    if s.t < s.finalTime then
      let s' := stepOf s.integrator s
      let now := clock k
      if 100 < now - lastUpdate then
        let rest := runLoop clock fuel now (k + 1) s'
        (rest.1, s'.t / s'.finalTime :: rest.2)
      else runLoop clock fuel lastUpdate (k + 1) s'
    else (s, [])

/-- `run`: execute the loop from the initial wall-clock reading and append the
final `1.0` progress notification. -/
noncomputable def run (fuel : ℕ) (clock : ℕ → ℤ) (s : SolverState ℝ) :
    SolverState ℝ × List ℝ :=
  let r := runLoop clock fuel (clock 0) 1 s
  (r.1, r.2 ++ [1])

/-! Concrete states and inputs used by the witness theorems. -/

/-- A slab violating every validity constraint of the configuration contract:
`γ = 1/2 ≤ 1`, negative molecular weight, negative pressure, zero
temperature. -/
def badSlab : Slab ℚ :=
  { gasId := "bogus", gamma := 1 / 2, mw := -1, pressure := -101325,
    temperature := 0, length := 2 }

/-- A freshly constructed 4-cell solver over ℚ. -/
def solverC1 : SolverState ℚ :=
  EulerSolver.new 4 (2 / 5) (1 / 50) (1 / 10000) IMethod.sharp "RK2"

/-- A one-cell state whose conservative density is `-1` (cell 0). -/
def negDensityState : SolverState ℚ :=
  { EulerSolver.new 1 (2 / 5) (1 / 50) (1 / 10000) IMethod.sharp "RK2" with
    U := fun j => if j = 0 then -1 else if j = 2 then 3 else 0
    gamma := fun _ => 7 / 5
    mw := fun _ => 29 }

/-- A one-cell, two-material mixed-method state over ℚ. -/
def mixedTestState : SolverState ℚ :=
  { EulerSolver.new 1 (2 / 5) (1 / 50) (1 / 10000) IMethod.mixed "RK2" with
    numMaterials := 2
    dx := 1
    materialFractions := fun k => if k = 0 then 3 / 4 else if k = 1 then 1 / 4 else 0
    materialProperties := [{ gamma := 7 / 5, mw := 29, gasId := "Air" },
                           { gamma := 5 / 3, mw := 4, gasId := "Helium" }] }

/-- A one-cell state over ℝ with positive density and pressure, used to
instantiate the integrator-stage and wall-flux theorems. -/
noncomputable def fluxTestState : SolverState ℝ :=
  { EulerSolver.new 1 (4 / 5) 1 (1 / 10) IMethod.sharp "SSP" with
    dx := 1
    x := fun i => if i = 0 then 1 / 2 else 0
    U := fun j => if j = 0 then 1 else if j = 2 then 2 else 0
    gamma := fun _ => 2
    mw := fun _ => 29 }

/-- A concrete air slab over ℝ used by the single-slab witness. -/
noncomputable def c9Slab : Slab ℝ :=
  { gasId := "Air", gamma := 7 / 5, mw := 29, pressure := 101325,
    temperature := 300, length := 2 }

/-- A two-cell, two-region state with one tracer, used to instantiate the
ghost/sharp agreement theorem. -/
noncomputable def ghostTestState : SolverState ℝ :=
  { EulerSolver.new 2 (2 / 5) (1 / 50) (1 / 10000) IMethod.sharp "RK2" with
    dx := 1
    x := fun i => if i = 0 then 1 / 2 else if i = 1 then 3 / 2 else 0
    tracers := [{ x := 1, trajectory := [(0, 1)] }]
    regions := [{ gamma := 7 / 5, mw := 29, gasId := "Air" },
                { gamma := 5 / 3, mw := 4, gasId := "Helium" }] }

/-! ## Claim C1 -/

/-- C1, counterexample.  The claim says `initialize` fails with a
`ConfigurationError` whenever some slab has `γ ≤ 1`, `mw ≤ 0`, `p ≤ 0` or
`T ≤ 0`, and completes only on valid input.  In fact `initialize` performs no
validation at all: on a slab violating every constraint it completes
normally. -/
theorem initSolver_accepts_invalid_slab :
    (initSolver solverC1 [badSlab]).isSome = true := by
  rfl

/-- C1, amended.  `EulerSolver.initialize` validates nothing: it completes on
every non-empty slab list, however invalid the slab parameters are; no
`ConfigurationError` exists in the code (an empty list merely crashes with a
`TypeError` when at least one cell exists). -/
theorem initSolver_total_on_nonempty {K : Type} [LinearOrderedField K]
    (s : SolverState K) (slabs : List (Slab K)) (h : slabs ≠ []) :
    (initSolver s slabs).isSome = true := by
  unfold initSolver
  rw [if_neg]
  · rfl
  · simp [List.isEmpty_iff, h]

/-- C1, witness for the amended theorem at the invalid concrete slab. -/
theorem initSolver_total_on_nonempty_witness :
    ([badSlab] ≠ []) ∧ (initSolver solverC1 [badSlab]).isSome = true :=
  ⟨by simp, initSolver_total_on_nonempty solverC1 [badSlab] (by simp)⟩

/-! ## Claim C2 -/

/-- C2, counterexample.  The claim says an unrecognized integrator name is a
configuration error and is never silently replaced by a default.  In fact
`IntegratorFactory.create` on the unknown name `"Euler"` returns the default
RK2 integrator, with only a `console.warn` (the `true` flag). -/
theorem create_silently_defaults :
    IntegratorFactory.create "Euler" = (IntegratorKind.RK2, true) := by
  rfl

/-- C2, amended.  For every name other than `"RK2"` and `"SSP"`,
`IntegratorFactory.create` logs a console warning and silently substitutes
the default RK2 integrator; no error is signalled. -/
theorem create_defaults_on_unknown (name : String)
    (h1 : name ≠ "RK2") (h2 : name ≠ "SSP") :
    IntegratorFactory.create name = (IntegratorKind.RK2, true) := by
  simp [IntegratorFactory.create, h1, h2]

/-- C2, witness for the amended theorem. -/
theorem create_defaults_on_unknown_witness :
    ("Euler" ≠ "RK2") ∧ ("Euler" ≠ "SSP") ∧
      IntegratorFactory.create "Euler" = (IntegratorKind.RK2, true) :=
  ⟨by decide, by decide, create_defaults_on_unknown "Euler" (by decide) (by decide)⟩

/-! ## Claim C3 -/

/-- C3, counterexample.  The claim says a non-positive density or pressure is
actively detected and the solver fails with a `NumericalInvariantViolation`
reporting cell and time, never letting the value propagate.  In fact
`updatePrimitives` is total and simply copies the negative density `-1` of
cell 0 into the primitive field, with no check anywhere. -/
theorem updatePrimitives_propagates_negative_density :
    (updatePrimitives negDensityState).rho 0 = -1 := by
  simp [updatePrimitives, negDensityState, EulerSolver.new]

/-- C3, amended.  No invariant detection exists: `updatePrimitives` completes
unconditionally and copies the conservative density verbatim into the
primitive density — including non-positive values — and neither it nor
`hllcFlux` can signal any error, so such values silently enter subsequent
steps. -/
theorem updatePrimitives_no_detection {K : Type} [LinearOrderedField K]
    (s : SolverState K) (i : ℕ) (hi : i < s.nx) :
    (updatePrimitives s).rho i = s.U (3 * i) := by
  simp [updatePrimitives, hi]

/-- C3, witness for the amended theorem at the negative-density state. -/
theorem updatePrimitives_no_detection_witness :
    0 < negDensityState.nx ∧
      (updatePrimitives negDensityState).rho 0 = negDensityState.U 0 := by
  refine ⟨by decide, ?_⟩
  have h := updatePrimitives_no_detection negDensityState 0 (by decide)
  simpa using h

/-! ## Claim C4 -/

/-- C4.  With `maxWaveSpeed > 0`, the step returned by `calculateTimeStep`
is `dt0 = CFL·dx/maxWaveSpeed` clamped to not overshoot `finalTime`; and when
the time `r` to the next snapshot instant satisfies `0 < r < 2.5·dt0`, the
returned step is `r / ⌈r/dt0⌉` — positive, at most `dt0`, and summing exactly
to `r` over `⌈r/dt0⌉` substeps. -/
theorem calculateTimeStep_policy {K : Type} [LinearOrderedField K] [FloorRing K]
    (cfl dx t finalTime nextXTStore maxWS dt0 r : K) (hm : 0 < maxWS)
    (hdt0 : dt0 = if finalTime < t + cfl * dx / maxWS then finalTime - t
                  else cfl * dx / maxWS)
    (hr : r = nextXTStore - t) :
    (¬(0 < r ∧ r < 5 / 2 * dt0) →
      calculateTimeStep cfl dx t finalTime nextXTStore maxWS = dt0) ∧
    ((0 < r ∧ r < 5 / 2 * dt0) →
      calculateTimeStep cfl dx t finalTime nextXTStore maxWS = r / (⌈r / dt0⌉ : K) ∧
      0 < r / (⌈r / dt0⌉ : K) ∧ r / (⌈r / dt0⌉ : K) ≤ dt0 ∧
      (⌈r / dt0⌉ : K) * (r / (⌈r / dt0⌉ : K)) = r) := by
  subst hdt0 hr
  unfold calculateTimeStep
  constructor
  · intro h
    rw [if_neg h]
  · intro h
    obtain ⟨h1, h2⟩ := h
    have hdtpos : 0 < (if finalTime < t + cfl * dx / maxWS then finalTime - t
        else cfl * dx / maxWS) := by
      nlinarith [h1, h2]
    set dt0 := (if finalTime < t + cfl * dx / maxWS then finalTime - t
        else cfl * dx / maxWS) with hdt0def
    have hceil : (1 : ℤ) ≤ ⌈(nextXTStore - t) / dt0⌉ :=
      Int.ceil_pos.mpr (div_pos h1 hdtpos)
    have hmax : max (1 : ℤ) ⌈(nextXTStore - t) / dt0⌉ = ⌈(nextXTStore - t) / dt0⌉ :=
      max_eq_right hceil
    have hcastpos : (0 : K) < (⌈(nextXTStore - t) / dt0⌉ : K) := by
      exact_mod_cast lt_of_lt_of_le zero_lt_one hceil
    rw [if_pos ⟨h1, h2⟩, hmax]
    refine ⟨rfl, div_pos h1 hcastpos, ?_, ?_⟩
    · rw [div_le_iff₀ hcastpos]
      have hle : (nextXTStore - t) / dt0 ≤ (⌈(nextXTStore - t) / dt0⌉ : K) :=
        Int.le_ceil _
      calc nextXTStore - t = (nextXTStore - t) / dt0 * dt0 := by
            field_simp
        _ ≤ (⌈(nextXTStore - t) / dt0⌉ : K) * dt0 := by
            exact mul_le_mul_of_nonneg_right hle (le_of_lt hdtpos)
        _ = dt0 * (⌈(nextXTStore - t) / dt0⌉ : K) := mul_comm _ _
    · exact mul_div_cancel₀ _ (ne_of_gt hcastpos)

/-- C4, witness: `cfl = 2/5`, `dx = 1`, `t = 0`, `finalTime = 1`, next
snapshot at `3/100`, `maxWaveSpeed = 10`, so `dt0 = 1/25` and
`0 < 3/100 < 2.5·dt0`: the snapshot branch fires with one substep. -/
theorem calculateTimeStep_policy_witness :
    calculateTimeStep (2 / 5 : ℚ) 1 0 1 (3 / 100) 10 =
      (3 / 100) / ((⌈(3 / 100 : ℚ) / (1 / 25)⌉ : ℤ) : ℚ) := by
  have h := calculateTimeStep_policy (K := ℚ) (2 / 5) 1 0 1 (3 / 100) 10
    (1 / 25) (3 / 100) (by norm_num) (by norm_num) (by norm_num)
  exact (h.2 (by norm_num)).1

/-! ## Claim C5 -/

/-- C5.  In the mixed method, after `advectMaterialFractions` every in-range
cell's row of the material-fraction table has each entry in `[0, 1]` and sums
exactly to 1 (hence within the specification's `1e-9`): either the clamped
row is renormalised by its positive sum, or — when that sum underflows the
`1e-10` threshold — the row is reset to the uniform `1/numMaterials`
distribution, which also sums to 1. -/
theorem advect_row_normalised {K : Type} [LinearOrderedField K]
    (s : SolverState K) (dt : K) (hmethod : s.interfaceMethod = IMethod.mixed)
    (hnm : 1 ≤ s.numMaterials) (i : ℕ) (hi : i < s.nx) :
    (∀ m < s.numMaterials,
      0 ≤ (advectMaterialFractions s dt).materialFractions (i * s.numMaterials + m) ∧
      (advectMaterialFractions s dt).materialFractions (i * s.numMaterials + m) ≤ 1) ∧
    ∑ m ∈ Finset.range s.numMaterials,
      (advectMaterialFractions s dt).materialFractions (i * s.numMaterials + m) = 1 := by
  have hnm0 : 0 < s.numMaterials := hnm
  have hval : ∀ idx,
      (advectMaterialFractions s dt).materialFractions idx =
        if idx < s.nx * s.numMaterials then
          if 1 / 10 ^ 10 < advectRowSum s dt (idx / s.numMaterials) then
            advectClamped s dt idx / advectRowSum s dt (idx / s.numMaterials)
          else 1 / (s.numMaterials : K)
        else s.materialFractions idx := by
    intro idx
    unfold advectMaterialFractions
    rw [if_neg (by simp [hmethod])]
  have hidx : ∀ m, m < s.numMaterials → i * s.numMaterials + m < s.nx * s.numMaterials := by
    intro m hm
    calc i * s.numMaterials + m < i * s.numMaterials + s.numMaterials := by omega
      _ = (i + 1) * s.numMaterials := by ring
      _ ≤ s.nx * s.numMaterials := Nat.mul_le_mul_right s.numMaterials hi
  have hdivi : ∀ m, m < s.numMaterials → (i * s.numMaterials + m) / s.numMaterials = i := by
    intro m hm
    have h1 : i * s.numMaterials + m = s.numMaterials * i + m := by ring
    rw [h1, Nat.mul_add_div hnm0, Nat.div_eq_of_lt hm]
    omega
  have hcl0 : ∀ idx, 0 ≤ advectClamped s dt idx := fun idx => le_max_left _ _
  have hrow_nonneg : 0 ≤ advectRowSum s dt i := Finset.sum_nonneg fun m _ => hcl0 _
  have hterm_le : ∀ m, m < s.numMaterials →
      advectClamped s dt (i * s.numMaterials + m) ≤ advectRowSum s dt i := by
    intro m hm
    exact Finset.single_le_sum (fun m _ => hcl0 (i * s.numMaterials + m))
      (Finset.mem_range.mpr hm)
  by_cases hcase : (1 : K) / 10 ^ 10 < advectRowSum s dt i
  · have hrowpos : 0 < advectRowSum s dt i := lt_trans (by positivity) hcase
    constructor
    · intro m hm
      rw [hval, if_pos (hidx m hm), hdivi m hm, if_pos hcase]
      exact ⟨div_nonneg (hcl0 _) hrow_nonneg,
        (div_le_one hrowpos).mpr (hterm_le m hm)⟩
    · have heq : ∀ m ∈ Finset.range s.numMaterials,
          (advectMaterialFractions s dt).materialFractions (i * s.numMaterials + m) =
            advectClamped s dt (i * s.numMaterials + m) / advectRowSum s dt i := by
        intro m hm
        rw [hval, if_pos (hidx m (Finset.mem_range.mp hm)),
          hdivi m (Finset.mem_range.mp hm), if_pos hcase]
      rw [Finset.sum_congr rfl heq, ← Finset.sum_div]
      exact div_self (ne_of_gt hrowpos)
  · have hle1 : (1 : K) / (s.numMaterials : K) ≤ 1 := by
      rw [div_le_one (by exact_mod_cast hnm0)]
      exact_mod_cast hnm
    constructor
    · intro m hm
      rw [hval, if_pos (hidx m hm), hdivi m hm, if_neg hcase]
      exact ⟨by positivity, hle1⟩
    · have heq : ∀ m ∈ Finset.range s.numMaterials,
          (advectMaterialFractions s dt).materialFractions (i * s.numMaterials + m) =
            1 / (s.numMaterials : K) := by
        intro m hm
        rw [hval, if_pos (hidx m (Finset.mem_range.mp hm)),
          hdivi m (Finset.mem_range.mp hm), if_neg hcase]
      rw [Finset.sum_congr rfl heq, Finset.sum_const, Finset.card_range,
        nsmul_eq_mul]
      field_simp

/-- C5, witness at a concrete two-material state. -/
theorem advect_row_normalised_witness :
    (∀ m < mixedTestState.numMaterials,
      0 ≤ (advectMaterialFractions mixedTestState 0).materialFractions
            (0 * mixedTestState.numMaterials + m) ∧
      (advectMaterialFractions mixedTestState 0).materialFractions
            (0 * mixedTestState.numMaterials + m) ≤ 1) ∧
    ∑ m ∈ Finset.range mixedTestState.numMaterials,
      (advectMaterialFractions mixedTestState 0).materialFractions
            (0 * mixedTestState.numMaterials + m) = 1 :=
  advect_row_normalised mixedTestState 0 (by decide) (by decide) 0 (by decide)

/-! ## Claim C6 -/

/-- On an ascending-sorted list, the break-at-first-failure region loop
computes the number of entries strictly below the cell center. -/
theorem regionScan_eq_countP {K : Type} [LinearOrderedField K]
    (c : K) (l : List K) (hl : l.Sorted (· ≤ ·)) :
    regionScan c l = l.countP (fun p => decide (p < c)) := by
  induction l with
  | nil => rfl
  | cons p t ih =>
    rw [List.sorted_cons] at hl
    by_cases hp : p < c
    · rw [regionScan, if_pos hp, List.countP_cons]
      simp [hp, ih hl.2]
    · rw [regionScan, if_neg hp, List.countP_cons]
      have ht : t.countP (fun p => decide (p < c)) = 0 := by
        rw [List.countP_eq_zero]
        intro q hq
        simp only [decide_eq_true_eq, not_lt]
        exact le_trans (not_lt.mp hp) (hl.1 q hq)
      simp [ht, hp]

/-- C6.  One call of `updateGasProperties` under the ghost method assigns to
every cell exactly the `gamma`/`mw`/`gasId` the sharp method assigns on the
same state — the region index being the clamped count of sorted tracer
positions strictly below the cell center — and differs only by recording the
cells within 1.5 cell-widths of a tracer in `interfaceCells`; every other
state component is left untouched. -/
theorem ghost_matches_sharp (s : SolverState ℝ) :
    (∀ i, (updateGasProperties { s with interfaceMethod := IMethod.ghost }).gamma i =
            (updateGasProperties { s with interfaceMethod := IMethod.sharp }).gamma i ∧
          (updateGasProperties { s with interfaceMethod := IMethod.ghost }).mw i =
            (updateGasProperties { s with interfaceMethod := IMethod.sharp }).mw i ∧
          (updateGasProperties { s with interfaceMethod := IMethod.ghost }).gasId i =
            (updateGasProperties { s with interfaceMethod := IMethod.sharp }).gasId i) ∧
    (∀ i, i < s.nx →
      (updateGasProperties { s with interfaceMethod := IMethod.ghost }).gamma i =
        (s.regions.getD
          (clampRegion s.regions.length
            ((s.tracers.map (·.x)).countP (fun p => decide (p < s.x i))))
          ⟨0, 0, ""⟩).gamma) ∧
    (updateGasProperties { s with interfaceMethod := IMethod.ghost }).interfaceCells =
      { i | i < s.nx ∧ ∃ tx ∈ s.tracers.map (·.x),
          min (min |tx - (i : ℝ) * s.dx| |tx - ((i : ℝ) + 1) * s.dx|) |tx - s.x i|
            < 3 / 2 * s.dx } ∧
    (updateGasProperties { s with interfaceMethod := IMethod.ghost }).nx = s.nx ∧
    (updateGasProperties { s with interfaceMethod := IMethod.ghost }).U = s.U ∧
    (updateGasProperties { s with interfaceMethod := IMethod.ghost }).Un = s.Un ∧
    (updateGasProperties { s with interfaceMethod := IMethod.ghost }).Uk = s.Uk ∧
    (updateGasProperties { s with interfaceMethod := IMethod.ghost }).rho = s.rho ∧
    (updateGasProperties { s with interfaceMethod := IMethod.ghost }).u = s.u ∧
    (updateGasProperties { s with interfaceMethod := IMethod.ghost }).p = s.p ∧
    (updateGasProperties { s with interfaceMethod := IMethod.ghost }).T = s.T ∧
    (updateGasProperties { s with interfaceMethod := IMethod.ghost }).t = s.t ∧
    (updateGasProperties { s with interfaceMethod := IMethod.ghost }).dt = s.dt ∧
    (updateGasProperties { s with interfaceMethod := IMethod.ghost }).timeSteps = s.timeSteps ∧
    (updateGasProperties { s with interfaceMethod := IMethod.ghost }).xtData = s.xtData ∧
    (updateGasProperties { s with interfaceMethod := IMethod.ghost }).nextXTStore = s.nextXTStore ∧
    (updateGasProperties { s with interfaceMethod := IMethod.ghost }).tracers = s.tracers ∧
    (updateGasProperties { s with interfaceMethod := IMethod.ghost }).regions = s.regions ∧
    (updateGasProperties { s with interfaceMethod := IMethod.ghost }).x = s.x ∧
    (updateGasProperties { s with interfaceMethod := IMethod.ghost }).dx = s.dx ∧
    (updateGasProperties { s with interfaceMethod := IMethod.ghost }).materialFractions =
      s.materialFractions := by
  refine ⟨fun i => ⟨rfl, rfl, rfl⟩, ?_, rfl, rfl, rfl, rfl, rfl, rfl, rfl, rfl,
    rfl, rfl, rfl, rfl, rfl, rfl, rfl, rfl, rfl, rfl, rfl⟩
  intro i hi
  show (if i < s.nx then _ else _) = _
  rw [if_pos hi]
  unfold regionAssign
  have hperm := List.perm_insertionSort (α := ℝ) (· ≤ ·) (s.tracers.map (·.x))
  have hsorted := List.sorted_insertionSort (α := ℝ) (· ≤ ·) (s.tracers.map (·.x))
  rw [show (identifyInterfaceCells { s with interfaceMethod := IMethod.ghost }).regions
      = s.regions from rfl]
  rw [show (identifyInterfaceCells { s with interfaceMethod := IMethod.ghost }).x
      = s.x from rfl]
  rw [show (identifyInterfaceCells { s with interfaceMethod := IMethod.ghost }).tracers
      = s.tracers from rfl]
  rw [regionScan_eq_countP _ _ hsorted, hperm.countP_eq]

/-- C6, witness at a concrete two-region, one-tracer state and cell 0. -/
theorem ghost_matches_sharp_witness :
    (updateGasProperties
        { ghostTestState with interfaceMethod := IMethod.ghost }).gamma 0 =
      (ghostTestState.regions.getD
        (clampRegion ghostTestState.regions.length
          ((ghostTestState.tracers.map (·.x)).countP
            (fun p => decide (p < ghostTestState.x 0))))
        ⟨0, 0, ""⟩).gamma :=
  (ghost_matches_sharp ghostTestState).2.1 0 (by decide)

/-! ## Claim C7 -/

/-- `postStep` never touches the conservative buffer `U`. -/
theorem postStep_U {K : Type} [LinearOrderedField K] [FloorRing K]
    (z : SolverState K) : (postStep z).U = z.U := by
  cases z with
  | mk nx cfl fT im integ x dx U Un Uk rho u pp T gamma mw gasId t dt ts xtD
      xtI nxs tr reg nm mf mp ic =>
    cases im <;> (unfold postStep; dsimp only; split <;> rfl)

/-- `postStep` never touches the step size `dt` (it is set before the call). -/
theorem postStep_dt {K : Type} [LinearOrderedField K] [FloorRing K]
    (z : SolverState K) : (postStep z).dt = z.dt := by
  cases z with
  | mk nx cfl fT im integ x dx U Un Uk rho u pp T gamma mw gasId t dt ts xtD
      xtI nxs tr reg nm mf mp ic =>
    cases im <;> (unfold postStep; dsimp only; split <;> rfl)

/-- The HLLC interface flux reads only the in-range entries of the
conservative buffer: two states agreeing below `3·nx` produce the same
interface flux for every interface `i ≤ nx`. -/
theorem fluxTriple_congr (nx : ℕ) (V W gamma : ℕ → ℝ)
    (h : ∀ j, j < 3 * nx → V j = W j) (hnx : 0 < nx) (i : ℕ) (hi : i ≤ nx) :
    fluxTriple nx V gamma i = fluxTriple nx W gamma i := by
  unfold fluxTriple
  rcases eq_or_ne i 0 with h0 | h0
  · subst h0
    rw [if_pos rfl, if_pos rfl, h 0 (by omega), h 1 (by omega), h 2 (by omega)]
  · rw [if_neg h0, if_neg h0]
    rcases eq_or_ne i nx with hn | hn
    · subst hn
      rw [if_pos rfl, if_pos rfl, h (3 * (i - 1)) (by omega),
        h (3 * (i - 1) + 1) (by omega), h (3 * (i - 1) + 2) (by omega)]
    · have hi' : i < nx := lt_of_le_of_ne hi hn
      rw [if_neg hn, if_neg hn, h (3 * (i - 1)) (by omega),
        h (3 * (i - 1) + 1) (by omega), h (3 * (i - 1) + 2) (by omega),
        h (3 * i) (by omega), h (3 * i + 1) (by omega), h (3 * i + 2) (by omega)]

/-- Flat-buffer version of `fluxTriple_congr` for the entries read by the
conservative update. -/
theorem fluxFlat_congr (nx : ℕ) (V W gamma : ℕ → ℝ)
    (h : ∀ j, j < 3 * nx → V j = W j) (hnx : 0 < nx) (j : ℕ)
    (hj : j < 3 * (nx + 1)) :
    fluxFlat nx V gamma j = fluxFlat nx W gamma j := by
  unfold fluxFlat
  rw [fluxTriple_congr nx V W gamma h hnx (j / 3) (by omega)]

/-- The code's `U + 0.5·(updateConservative(U) − U)` half stage equals the
Shu–Osher `W + (dt/2)·L(W)` stage for any state `W` agreeing with `U` on the
in-range entries. -/
theorem halfStage_congr (nx : ℕ) (dx dt : ℝ) (gamma V W : ℕ → ℝ)
    (hVW : ∀ j, j < 3 * nx → V j = W j) (j : ℕ) (hj : j < 3 * nx) :
    V j + 1 / 2 * (updateConservative nx dx dt (fluxFlat nx V gamma) V j - V j) =
      W j + dt / 2 * Lop nx dx gamma W j := by
  have hnx : 0 < nx := by omega
  have hfr := fluxFlat_congr nx V W gamma hVW hnx (j + 3) (by omega)
  have hfl := fluxFlat_congr nx V W gamma hVW hnx j (by omega)
  unfold updateConservative Lop
  rw [if_pos hj, hVW j hj, hfr, hfl]
  ring

/-- SSP stage 1 of the code equals the Shu–Osher stage 1. -/
theorem sspU1_eq_spec (nx : ℕ) (dx dt : ℝ) (gamma U0 : ℕ → ℝ) (j : ℕ)
    (hj : j < 3 * nx) :
    sspU1 nx dx dt gamma U0 j = specSSPU1 nx dx dt gamma U0 j := by
  unfold sspU1 specSSPU1
  rw [if_pos hj]
  exact halfStage_congr nx dx dt gamma U0 U0 (fun _ _ => rfl) j hj

/-- SSP stage 2 of the code equals the Shu–Osher stage 2. -/
theorem sspU2_eq_spec (nx : ℕ) (dx dt : ℝ) (gamma U0 : ℕ → ℝ) (j : ℕ)
    (hj : j < 3 * nx) :
    sspU2 nx dx dt gamma U0 j = specSSPU2 nx dx dt gamma U0 j := by
  unfold sspU2 specSSPU2
  rw [if_pos hj]
  exact halfStage_congr nx dx dt gamma _ _ (sspU1_eq_spec nx dx dt gamma U0) j hj

/-- SSP stage 3 of the code (`(2/3)·Un + (1/6)·U + (1/6)·Uk`) equals the
Shu–Osher `(2/3)·Un + (1/3)·U2 + (dt/6)·L(U2)`. -/
theorem sspU3_eq_spec (nx : ℕ) (dx dt : ℝ) (gamma U0 : ℕ → ℝ) (j : ℕ)
    (hj : j < 3 * nx) :
    sspU3 nx dx dt gamma U0 j = specSSPU3 nx dx dt gamma U0 j := by
  have hnx : 0 < nx := by omega
  have hVW := sspU2_eq_spec nx dx dt gamma U0
  have hfr := fluxFlat_congr nx (sspU2 nx dx dt gamma U0) (specSSPU2 nx dx dt gamma U0)
    gamma hVW hnx (j + 3) (by omega)
  have hfl := fluxFlat_congr nx (sspU2 nx dx dt gamma U0) (specSSPU2 nx dx dt gamma U0)
    gamma hVW hnx j (by omega)
  unfold sspU3 specSSPU3 sspUk3
  rw [if_pos hj]
  unfold updateConservative
  rw [if_pos hj, hVW j hj, hfr, hfl]
  unfold Lop
  ring

/-- SSP stage 4 of the code (`0.5·U3 + 0.5·Uk`) equals the Shu–Osher
`U3 + (dt/2)·L(U3)`. -/
theorem sspU4_eq_spec (nx : ℕ) (dx dt : ℝ) (gamma U0 : ℕ → ℝ) (j : ℕ)
    (hj : j < 3 * nx) :
    sspU4 nx dx dt gamma U0 j = specSSPNext nx dx dt gamma U0 j := by
  have hnx : 0 < nx := by omega
  have hVW := sspU3_eq_spec nx dx dt gamma U0
  have hfr := fluxFlat_congr nx (sspU3 nx dx dt gamma U0) (specSSPU3 nx dx dt gamma U0)
    gamma hVW hnx (j + 3) (by omega)
  have hfl := fluxFlat_congr nx (sspU3 nx dx dt gamma U0) (specSSPU3 nx dx dt gamma U0)
    gamma hVW hnx j (by omega)
  unfold sspU4 specSSPNext sspUk4
  rw [if_pos hj]
  unfold updateConservative
  rw [if_pos hj, hVW j hj, hfr, hfl]
  unfold Lop
  ring

/-- The current buffer after `sspStep` is stage 4 at the step's `dt`. -/
theorem sspStep_U_eq (s : SolverState ℝ) :
    (sspStep s).U = sspU4 s.nx s.dx
      (calculateTimeStep s.cfl s.dx s.t s.finalTime s.nextXTStore
        (maxWaveSpeed s.nx s.U s.gamma)) s.gamma s.U := by
  simp only [sspStep, postStep_U]

/-- The step size used by `sspStep` is the one chosen before the stages. -/
theorem sspStep_dt_eq (s : SolverState ℝ) :
    (sspStep s).dt = calculateTimeStep s.cfl s.dx s.t s.finalTime s.nextXTStore
      (maxWaveSpeed s.nx s.U s.gamma) := by
  simp only [sspStep, postStep_dt]

/-- C7.  Each `SSPIntegrator.step` advances every in-range entry of the
current buffer by exactly the four-stage Shu–Osher scheme
`U1 = Un + (dt/2)L(Un)`, `U2 = U1 + (dt/2)L(U1)`,
`U3 = (2/3)Un + (1/3)U2 + (dt/6)L(U2)`, `U_next = U3 + (dt/2)L(U3)`, with
`L(V) = -(1/dx)(F_right(V) - F_left(V))` and the fluxes recomputed from the
state of the preceding stage (only the three buffers `U`, `Un`, `Uk` are
involved). -/
theorem sspStep_follows_shu_osher (s : SolverState ℝ) (j : ℕ)
    (hj : j < 3 * s.nx) :
    (sspStep s).U j = specSSPNext s.nx s.dx ((sspStep s).dt) s.gamma s.U j := by
  rw [sspStep_U_eq, sspStep_dt_eq]
  exact sspU4_eq_spec s.nx s.dx _ s.gamma s.U j hj

/-- C7, witness at a concrete one-cell state. -/
theorem sspStep_follows_shu_osher_witness :
    (sspStep fluxTestState).U 0 =
      specSSPNext fluxTestState.nx fluxTestState.dx ((sspStep fluxTestState).dt)
        fluxTestState.gamma fluxTestState.U 0 :=
  sspStep_follows_shu_osher fluxTestState 0 (by decide)

/-! ## Claim C8 -/

/-- Arithmetic of reflected Davis bounds, left-wall orientation. -/
theorem min_reflect (v a : ℝ) : min (-v - a) (v - a) = -max (-v + a) (v + a) := by
  rw [← min_neg_neg, min_comm]
  congr 1 <;> ring

/-- Arithmetic of reflected Davis bounds, right-wall orientation. -/
theorem min_reflect' (v a : ℝ) : min (v - a) (-v - a) = -max (v + a) (-v + a) := by
  rw [← min_neg_neg, min_comm]
  congr 1 <;> ring

/-- Squared negated velocity equals squared velocity (fixing up the
`uL·uL` term after `(-m)/ρ = -(m/ρ)`). -/
theorem sq_neg_fix (x y : ℝ) : x * -y * -y = x * y * y := by ring

/-- At a left-wall reflected pair, `SL = -SR`. -/
theorem davisSL_reflectL (rho m E g : ℝ) :
    davisSL rho (-m) E rho m E g g = -davisSR rho (-m) E rho m E g g := by
  unfold davisSL davisSR
  dsimp only
  rw [neg_div, sq_neg_fix]
  exact min_reflect (m / rho) _

/-- At a right-wall reflected pair, `SL = -SR`. -/
theorem davisSL_reflectR (rho m E g : ℝ) :
    davisSL rho m E rho (-m) E g g = -davisSR rho m E rho (-m) E g g := by
  unfold davisSL davisSR
  dsimp only
  rw [neg_div, sq_neg_fix]
  exact min_reflect' (m / rho) _

/-- With positive density, pressure and `γ > 1`, the right Davis bound at a
left-wall reflected pair is positive. -/
theorem davisSR_posL (rho m E g : ℝ) (hrho : 0 < rho) (hg : 1 < g)
    (hp : 0 < (g - 1) * (E - 1 / 2 * rho * (m / rho) * (m / rho))) :
    0 < davisSR rho (-m) E rho m E g g := by
  unfold davisSR
  dsimp only
  rw [neg_div, sq_neg_fix]
  have ha : 0 < Real.sqrt
      (g * ((g - 1) * (E - 1 / 2 * rho * (m / rho) * (m / rho))) / rho) :=
    Real.sqrt_pos.mpr (div_pos (mul_pos (by linarith) hp) hrho)
  rcases le_or_lt 0 (m / rho) with hv | hv
  · exact lt_max_of_lt_right (by linarith)
  · exact lt_max_of_lt_left (by linarith)

/-- With positive density, pressure and `γ > 1`, the right Davis bound at a
right-wall reflected pair is positive. -/
theorem davisSR_posR (rho m E g : ℝ) (hrho : 0 < rho) (hg : 1 < g)
    (hp : 0 < (g - 1) * (E - 1 / 2 * rho * (m / rho) * (m / rho))) :
    0 < davisSR rho m E rho (-m) E g g := by
  unfold davisSR
  dsimp only
  rw [neg_div, sq_neg_fix]
  have ha : 0 < Real.sqrt
      (g * ((g - 1) * (E - 1 / 2 * rho * (m / rho) * (m / rho))) / rho) :=
    Real.sqrt_pos.mpr (div_pos (mul_pos (by linarith) hp) hrho)
  rcases le_or_lt 0 (m / rho) with hv | hv
  · exact lt_max_of_lt_left (by linarith)
  · exact lt_max_of_lt_right (by linarith)

/-- The contact speed of a left-wall reflected pair vanishes identically. -/
theorem hllcSStar_wallL (rho m E g : ℝ) :
    hllcSStar rho (-m) E rho m E g g = 0 := by
  unfold hllcSStar
  dsimp only
  rw [neg_div, sq_neg_fix, davisSL_reflectL]
  rw [div_eq_zero_iff]
  left
  ring

/-- The contact speed of a right-wall reflected pair vanishes identically. -/
theorem hllcSStar_wallR (rho m E g : ℝ) :
    hllcSStar rho m E rho (-m) E g g = 0 := by
  unfold hllcSStar
  dsimp only
  rw [neg_div, sq_neg_fix, davisSL_reflectR]
  rw [div_eq_zero_iff]
  left
  ring

/-- At a left wall, the HLLC mass and energy fluxes are exactly zero. -/
theorem hllcFlux_wallL (rho m E g : ℝ) (hrho : 0 < rho) (hg : 1 < g)
    (hp : 0 < (g - 1) * (E - 1 / 2 * rho * (m / rho) * (m / rho))) :
    (hllcFlux rho (-m) E rho m E g g).1 = 0 ∧
    (hllcFlux rho (-m) E rho m E g g).2.2.1 = 0 := by
  have hSR := davisSR_posL rho m E g hrho hg hp
  have hSL : davisSL rho (-m) E rho m E g g < 0 := by
    rw [davisSL_reflectL]; linarith
  have hstar := hllcSStar_wallL rho m E g
  unfold hllcFlux
  dsimp only
  rw [if_neg (not_le.mpr hSL), if_pos (le_of_eq hstar.symm), hstar]
  constructor
  · exact mul_zero _
  · exact zero_mul _

/-- At a right wall, the HLLC mass and energy fluxes are exactly zero. -/
theorem hllcFlux_wallR (rho m E g : ℝ) (hrho : 0 < rho) (hg : 1 < g)
    (hp : 0 < (g - 1) * (E - 1 / 2 * rho * (m / rho) * (m / rho))) :
    (hllcFlux rho m E rho (-m) E g g).1 = 0 ∧
    (hllcFlux rho m E rho (-m) E g g).2.2.1 = 0 := by
  have hSR := davisSR_posR rho m E g hrho hg hp
  have hSL : davisSL rho m E rho (-m) E g g < 0 := by
    rw [davisSL_reflectR]; linarith
  have hstar := hllcSStar_wallR rho m E g
  unfold hllcFlux
  dsimp only
  rw [if_neg (not_le.mpr hSL), if_pos (le_of_eq hstar.symm), hstar]
  constructor
  · exact mul_zero _
  · exact zero_mul _

/-- Telescoping conservation of the conservative update: when the component
`k` of the flux vanishes at both walls, the cell total of component `k` is
unchanged by `updateConservative`, for any state the update is applied to. -/
theorem conservative_sum (nx : ℕ) (dx dt : ℝ) (F V : ℕ → ℝ) (k : ℕ) (hk : k < 3)
    (h0 : F (3 * 0 + k) = 0) (hn : F (3 * nx + k) = 0) :
    ∑ i ∈ Finset.range nx, updateConservative nx dx dt F V (3 * i + k) =
      ∑ i ∈ Finset.range nx, V (3 * i + k) := by
  have hterm : ∀ i ∈ Finset.range nx,
      updateConservative nx dx dt F V (3 * i + k) =
        V (3 * i + k) - dt / dx * (F (3 * (i + 1) + k) - F (3 * i + k)) := by
    intro i hi
    unfold updateConservative
    rw [if_pos (by have := Finset.mem_range.mp hi; omega),
      show 3 * i + k + 3 = 3 * (i + 1) + k by ring]
  rw [Finset.sum_congr rfl hterm, Finset.sum_sub_distrib, ← Finset.mul_sum,
    Finset.sum_range_sub (fun i => F (3 * i + k)) nx, hn, h0]
  ring

/-- C8.  On a state whose wall cells have positive density and pressure (and
`γ > 1`), the reflected ghost states make the HLLC contact speed `S* = 0` at
both walls, the wall mass and energy fluxes are exactly zero, and therefore
every conservative update stage built on these fluxes preserves the totals
`Σ density` and `Σ energy` exactly — so in exact arithmetic they agree
between any two snapshots of a run. -/
theorem wall_fluxes_vanish_and_conserve (nx : ℕ) (U gamma : ℕ → ℝ) (dx dt : ℝ)
    (hnx : 0 < nx)
    (hrho0 : 0 < U 0) (hg0 : 1 < gamma 0)
    (hp0 : 0 < (gamma 0 - 1) * (U 2 - 1 / 2 * U 0 * (U 1 / U 0) * (U 1 / U 0)))
    (hrhoN : 0 < U (3 * (nx - 1))) (hgN : 1 < gamma (nx - 1))
    (hpN : 0 < (gamma (nx - 1) - 1) * (U (3 * (nx - 1) + 2) -
      1 / 2 * U (3 * (nx - 1)) * (U (3 * (nx - 1) + 1) / U (3 * (nx - 1))) *
        (U (3 * (nx - 1) + 1) / U (3 * (nx - 1))))) :
    hllcSStar (U 0) (-U 1) (U 2) (U 0) (U 1) (U 2) (gamma 0) (gamma 0) = 0 ∧
    hllcSStar (U (3 * (nx - 1))) (U (3 * (nx - 1) + 1)) (U (3 * (nx - 1) + 2))
      (U (3 * (nx - 1))) (-U (3 * (nx - 1) + 1)) (U (3 * (nx - 1) + 2))
      (gamma (nx - 1)) (gamma (nx - 1)) = 0 ∧
    fluxFlat nx U gamma 0 = 0 ∧ fluxFlat nx U gamma 2 = 0 ∧
    fluxFlat nx U gamma (3 * nx) = 0 ∧ fluxFlat nx U gamma (3 * nx + 2) = 0 ∧
    (∀ V : ℕ → ℝ,
      ∑ i ∈ Finset.range nx,
          updateConservative nx dx dt (fluxFlat nx U gamma) V (3 * i) =
        ∑ i ∈ Finset.range nx, V (3 * i)) ∧
    (∀ V : ℕ → ℝ,
      ∑ i ∈ Finset.range nx,
          updateConservative nx dx dt (fluxFlat nx U gamma) V (3 * i + 2) =
        ∑ i ∈ Finset.range nx, V (3 * i + 2)) := by
  have hwallL := hllcFlux_wallL (U 0) (U 1) (U 2) (gamma 0) hrho0 hg0 hp0
  have hwallR := hllcFlux_wallR (U (3 * (nx - 1))) (U (3 * (nx - 1) + 1))
    (U (3 * (nx - 1) + 2)) (gamma (nx - 1)) hrhoN hgN hpN
  have htrip0 : fluxTriple nx U gamma 0 =
      hllcFlux (U 0) (-U 1) (U 2) (U 0) (U 1) (U 2) (gamma 0) (gamma 0) := by
    unfold fluxTriple
    rw [if_pos rfl]
  have htripN : fluxTriple nx U gamma nx =
      hllcFlux (U (3 * (nx - 1))) (U (3 * (nx - 1) + 1)) (U (3 * (nx - 1) + 2))
        (U (3 * (nx - 1))) (-U (3 * (nx - 1) + 1)) (U (3 * (nx - 1) + 2))
        (gamma (nx - 1)) (gamma (nx - 1)) := by
    unfold fluxTriple
    rw [if_neg (by omega), if_pos rfl]
  have hf0 : fluxFlat nx U gamma 0 = 0 := by
    unfold fluxFlat
    norm_num
    rw [htrip0]
    exact hwallL.1
  have hf2 : fluxFlat nx U gamma 2 = 0 := by
    unfold fluxFlat
    norm_num
    rw [htrip0]
    exact hwallL.2
  have hfN0 : fluxFlat nx U gamma (3 * nx) = 0 := by
    unfold fluxFlat
    rw [show 3 * nx / 3 = nx by omega, show 3 * nx % 3 = 0 by omega]
    dsimp only
    rw [htripN]
    exact hwallR.1
  have hfN2 : fluxFlat nx U gamma (3 * nx + 2) = 0 := by
    unfold fluxFlat
    rw [show (3 * nx + 2) / 3 = nx by omega, show (3 * nx + 2) % 3 = 2 by omega]
    dsimp only
    rw [htripN]
    exact hwallR.2
  refine ⟨hllcSStar_wallL (U 0) (U 1) (U 2) (gamma 0),
    hllcSStar_wallR (U (3 * (nx - 1))) (U (3 * (nx - 1) + 1))
      (U (3 * (nx - 1) + 2)) (gamma (nx - 1)),
    hf0, hf2, hfN0, hfN2, ?_, ?_⟩
  · intro V
    have := conservative_sum nx dx dt (fluxFlat nx U gamma) V 0 (by omega)
      (by simpa using hf0) (by simpa using hfN0)
    simpa using this
  · intro V
    exact conservative_sum nx dx dt (fluxFlat nx U gamma) V 2 (by omega)
      (by simpa using hf2) (by simpa using hfN2)

/-- C8, witness at the concrete one-cell positive state. -/
theorem wall_fluxes_vanish_and_conserve_witness :
    fluxFlat 1 fluxTestState.U fluxTestState.gamma 0 = 0 ∧
    fluxFlat 1 fluxTestState.U fluxTestState.gamma (3 * 1) = 0 :=
  ⟨(wall_fluxes_vanish_and_conserve 1 fluxTestState.U fluxTestState.gamma 1 1
      (by norm_num)
      (by norm_num [fluxTestState, EulerSolver.new])
      (by norm_num [fluxTestState, EulerSolver.new])
      (by norm_num [fluxTestState, EulerSolver.new])
      (by norm_num [fluxTestState, EulerSolver.new])
      (by norm_num [fluxTestState, EulerSolver.new])
      (by norm_num [fluxTestState, EulerSolver.new])).2.2.1,
   (wall_fluxes_vanish_and_conserve 1 fluxTestState.U fluxTestState.gamma 1 1
      (by norm_num)
      (by norm_num [fluxTestState, EulerSolver.new])
      (by norm_num [fluxTestState, EulerSolver.new])
      (by norm_num [fluxTestState, EulerSolver.new])
      (by norm_num [fluxTestState, EulerSolver.new])
      (by norm_num [fluxTestState, EulerSolver.new])
      (by norm_num [fluxTestState, EulerSolver.new])).2.2.2.2.1⟩

/-! ## Claim C9 -/

/-- On a uniform zero-velocity state, every interface (walls included, since
`-0 = 0`) feeds `hllcFlux` the same arguments, so all interface fluxes are
identical. -/
theorem fluxTriple_uniform (nx : ℕ) (U gamma : ℕ → ℝ) (r0 E0 g : ℝ)
    (hnx : 0 < nx)
    (hU : ∀ i, i < nx → U (3 * i) = r0 ∧ U (3 * i + 1) = 0 ∧ U (3 * i + 2) = E0)
    (hG : ∀ i, i < nx → gamma i = g) :
    ∀ i, i ≤ nx → fluxTriple nx U gamma i = hllcFlux r0 0 E0 r0 0 E0 g g := by
  intro i hi
  unfold fluxTriple
  rcases eq_or_ne i 0 with h0 | h0
  · subst h0
    rw [if_pos rfl]
    have e0 : U 0 = r0 := (hU 0 hnx).1
    have e1 : U 1 = 0 := (hU 0 hnx).2.1
    have e2 : U 2 = E0 := (hU 0 hnx).2.2
    have eg : gamma 0 = g := hG 0 hnx
    rw [e0, e1, e2, eg, neg_zero]
  · rw [if_neg h0]
    rcases eq_or_ne i nx with hn | hn
    · subst hn
      rw [if_pos rfl]
      have hlt : i - 1 < i := by omega
      rw [(hU (i - 1) (by omega)).1, (hU (i - 1) (by omega)).2.1,
        (hU (i - 1) (by omega)).2.2, hG (i - 1) (by omega), neg_zero]
    · have hi' : i < nx := lt_of_le_of_ne hi hn
      rw [if_neg hn, (hU (i - 1) (by omega)).1, (hU (i - 1) (by omega)).2.1,
        (hU (i - 1) (by omega)).2.2, (hU i hi').1, (hU i hi').2.1,
        (hU i hi').2.2, hG (i - 1) (by omega), hG i hi']

/-- On a uniform zero-velocity state, the conservative update is the
identity: neighbouring interface fluxes cancel exactly. -/
theorem updateConservative_uniform (nx : ℕ) (dx dt : ℝ) (U gamma : ℕ → ℝ)
    (r0 E0 g : ℝ)
    (hU : ∀ i, i < nx → U (3 * i) = r0 ∧ U (3 * i + 1) = 0 ∧ U (3 * i + 2) = E0)
    (hG : ∀ i, i < nx → gamma i = g) :
    updateConservative nx dx dt (fluxFlat nx U gamma) U = U := by
  funext j
  unfold updateConservative
  rcases lt_or_ge j (3 * nx) with hj | hj
  · have hnx : 0 < nx := by omega
    rw [if_pos hj]
    unfold fluxFlat
    have ht1 := fluxTriple_uniform nx U gamma r0 E0 g hnx hU hG ((j + 3) / 3) (by omega)
    have ht2 := fluxTriple_uniform nx U gamma r0 E0 g hnx hU hG (j / 3) (by omega)
    rw [show (j + 3) % 3 = j % 3 by omega, ht1, ht2]
    ring_nf
  · rw [if_neg (by omega)]

/-- Both RK2 stages leave a uniform zero-velocity state unchanged. -/
theorem rk2U2_uniform (nx : ℕ) (dx dt : ℝ) (gamma U : ℕ → ℝ) (r0 E0 g : ℝ)
    (hU : ∀ i, i < nx → U (3 * i) = r0 ∧ U (3 * i + 1) = 0 ∧ U (3 * i + 2) = E0)
    (hG : ∀ i, i < nx → gamma i = g) :
    rk2U2 nx dx dt gamma U = U := by
  have h1 : rk2Uk1 nx dx dt gamma U = U :=
    updateConservative_uniform nx dx dt U gamma r0 E0 g hU hG
  have h2 : rk2U1 nx dx dt gamma U = U := by
    funext j
    unfold rk2U1
    rw [h1]
    split <;> rfl
  have h3 : rk2Uk2 nx dx dt gamma U = U := by
    unfold rk2Uk2
    rw [h2, h1]
    exact updateConservative_uniform nx dx dt U gamma r0 E0 g hU hG
  funext j
  unfold rk2U2
  rw [h2, h3]
  split
  · ring
  · rfl

/-- All four SSP stages leave a uniform zero-velocity state unchanged. -/
theorem sspU4_uniform (nx : ℕ) (dx dt : ℝ) (gamma U : ℕ → ℝ) (r0 E0 g : ℝ)
    (hU : ∀ i, i < nx → U (3 * i) = r0 ∧ U (3 * i + 1) = 0 ∧ U (3 * i + 2) = E0)
    (hG : ∀ i, i < nx → gamma i = g) :
    sspU4 nx dx dt gamma U = U := by
  have hupd : updateConservative nx dx dt (fluxFlat nx U gamma) U = U :=
    updateConservative_uniform nx dx dt U gamma r0 E0 g hU hG
  have h1 : sspU1 nx dx dt gamma U = U := by
    funext j
    unfold sspU1
    rw [hupd]
    split
    · ring
    · rfl
  have h2 : sspU2 nx dx dt gamma U = U := by
    funext j
    unfold sspU2
    rw [h1, hupd]
    split
    · ring
    · rfl
  have h3 : sspU3 nx dx dt gamma U = U := by
    funext j
    unfold sspU3 sspUk3
    rw [h2, hupd]
    split
    · ring
    · rfl
  funext j
  unfold sspU4 sspUk4
  rw [h3, hupd]
  split
  · ring
  · rfl

/-- `updateGasProperties` writes only `gamma`, `mw`, `gasId` (and, in the
ghost branch, `interfaceCells`); every other component is untouched in all
three branches. -/
theorem updateGasProperties_keeps {K : Type} [LinearOrderedField K]
    (z : SolverState K) :
    (updateGasProperties z).U = z.U ∧ (updateGasProperties z).rho = z.rho ∧
    (updateGasProperties z).u = z.u ∧ (updateGasProperties z).p = z.p ∧
    (updateGasProperties z).T = z.T ∧
    (updateGasProperties z).tracers = z.tracers ∧
    (updateGasProperties z).regions = z.regions ∧
    (updateGasProperties z).nx = z.nx ∧
    (updateGasProperties z).numMaterials = z.numMaterials ∧
    (updateGasProperties z).materialFractions = z.materialFractions ∧
    (updateGasProperties z).materialProperties = z.materialProperties ∧
    (updateGasProperties z).interfaceMethod = z.interfaceMethod ∧
    (updateGasProperties z).x = z.x ∧ (updateGasProperties z).dx = z.dx ∧
    (updateGasProperties z).t = z.t ∧ (updateGasProperties z).dt = z.dt := by
  cases z with
  | mk nx cfl fT im integ x dx U Un Uk rho u pp T gamma mw gasId t dt ts xtD
      xtI nxs tr reg nm mf mp ic =>
    cases im <;>
      exact ⟨rfl, rfl, rfl, rfl, rfl, rfl, rfl, rfl, rfl, rfl, rfl, rfl, rfl,
        rfl, rfl, rfl⟩

/-- On a state with no tracers and a single region, `updateGasProperties`
assigns that region's properties to every cell under the sharp and ghost
methods, and under the mixed method when the single material has unit
fraction. -/
theorem updateGasProperties_uniform (s : SolverState ℝ) (reg : Region ℝ)
    (hgne : reg.gamma ≠ 1)
    (htr : s.tracers = []) (hreg : s.regions = [reg])
    (hmix : s.interfaceMethod = IMethod.mixed →
      s.numMaterials = 1 ∧ s.materialProperties = [reg] ∧
      ∀ i, i < s.nx → s.materialFractions i = 1) :
    ∀ i, i < s.nx → (updateGasProperties s).gamma i = reg.gamma ∧
      (updateGasProperties s).mw i = reg.mw ∧
      (updateGasProperties s).gasId i = reg.gasId := by
  intro i hi
  have hassign2 : ∀ z : SolverState ℝ, z.regions = [reg] →
      ∀ positions, positions = ([] : List ℝ) → regionAssign z positions i = reg := by
    intro z hz positions hpos
    subst hpos
    unfold regionAssign regionScan clampRegion
    rw [hz]
    norm_num
  unfold updateGasProperties
  rcases hm : s.interfaceMethod with _ | _ | _
  · -- sharp
    dsimp only
    rw [if_pos hi, if_pos hi, if_pos hi, hassign2 s hreg _ (by simp [htr])]
    exact ⟨rfl, rfl, rfl⟩
  · -- ghost
    dsimp only
    have htr' : (identifyInterfaceCells s).tracers = [] := htr
    rw [if_pos (show i < (identifyInterfaceCells s).nx from hi),
      if_pos (show i < (identifyInterfaceCells s).nx from hi),
      if_pos (show i < (identifyInterfaceCells s).nx from hi),
      hassign2 (identifyInterfaceCells s) hreg _ (by simp [htr'])]
    exact ⟨rfl, rfl, rfl⟩
  · -- mixed
    obtain ⟨hnm, hmp, hfr⟩ := hmix hm
    dsimp only
    rw [if_pos hi, if_pos hi, if_pos hi]
    have hmixprops : computeMixtureProperties s i = reg := by
      unfold computeMixtureProperties
      rw [hnm, hmp]
      simp only [Finset.sum_range_one, Nat.mul_one, Nat.add_zero,
        List.getD_cons_zero]
      rw [hfr i hi]
      have hdom : (List.foldl
          (fun (acc : ℝ × ℕ) m =>
            if acc.1 < s.materialFractions (i + m)
            then (s.materialFractions (i + m), m) else acc)
          ((0 : ℝ), 0) (List.range 1)).2 = 0 := by
        rw [show List.range 1 = [0] from rfl]
        simp only [List.foldl_cons, List.foldl_nil]
        split <;> rfl
      rw [hdom]
      rcases reg with ⟨rg, rmw, rid⟩
      simp only at hgne ⊢
      norm_num
    rw [hmixprops]
    exact ⟨rfl, rfl, rfl⟩

/-- On a uniform zero-velocity state, `updatePrimitives` produces the
constant primitives `ρ = r0`, `u = 0`, `p = (γ−1)·E0`,
`T = (γ−1)·E0 / (r0·(Ru/mw))` in every cell. -/
theorem updatePrimitives_uniform (z : SolverState ℝ) (r0 E0 : ℝ) (reg : Region ℝ)
    (hU : ∀ i, i < z.nx → z.U (3 * i) = r0 ∧ z.U (3 * i + 1) = 0 ∧ z.U (3 * i + 2) = E0)
    (hG : ∀ i, i < z.nx → z.gamma i = reg.gamma ∧ z.mw i = reg.mw ∧ z.gasId i = reg.gasId) :
    ∀ i, i < z.nx → (updatePrimitives z).rho i = r0 ∧ (updatePrimitives z).u i = 0 ∧
      (updatePrimitives z).p i = (reg.gamma - 1) * E0 ∧
      (updatePrimitives z).T i = (reg.gamma - 1) * E0 / (r0 * (Ru / reg.mw)) := by
  intro i hi
  unfold updatePrimitives
  dsimp only
  simp only [if_pos hi, (hU i hi).1, (hU i hi).2.1, (hU i hi).2.2,
    (hG i hi).1, (hG i hi).2.1, zero_div]
  refine ⟨?_, ?_, ?_, ?_⟩ <;> first | trivial | ring | ring_nf

/-- On a uniform zero-velocity state, `postStep` leaves the conservative
buffer untouched, keeps the tracer set empty, preserves the static
configuration, and reproduces the same per-cell gas properties and
primitives. -/
theorem postStep_uniform (z : SolverState ℝ) (r0 E0 : ℝ) (reg : Region ℝ)
    (hgne : reg.gamma ≠ 1)
    (hU : ∀ i, i < z.nx → z.U (3 * i) = r0 ∧ z.U (3 * i + 1) = 0 ∧ z.U (3 * i + 2) = E0)
    (hG : ∀ i, i < z.nx → z.gamma i = reg.gamma ∧ z.mw i = reg.mw ∧ z.gasId i = reg.gasId)
    (htr : z.tracers = []) (hreg : z.regions = [reg])
    (hmix : z.interfaceMethod = IMethod.mixed →
      z.numMaterials = 1 ∧ z.materialProperties = [reg] ∧
      ∀ i, i < z.nx → z.materialFractions i = 1) :
    (postStep z).U = z.U ∧ (postStep z).tracers = [] ∧
    (postStep z).nx = z.nx ∧
    (postStep z).interfaceMethod = z.interfaceMethod ∧
    (postStep z).regions = z.regions ∧
    (postStep z).numMaterials = z.numMaterials ∧
    (postStep z).materialFractions = z.materialFractions ∧
    (postStep z).materialProperties = z.materialProperties ∧
    (∀ i, i < z.nx → (postStep z).gamma i = reg.gamma ∧
      (postStep z).mw i = reg.mw ∧ (postStep z).gasId i = reg.gasId) ∧
    (∀ i, i < z.nx → (postStep z).rho i = r0 ∧ (postStep z).u i = 0 ∧
      (postStep z).p i = (reg.gamma - 1) * E0 ∧
      (postStep z).T i = (reg.gamma - 1) * E0 / (r0 * (Ru / reg.mw))) := by
  have hW2tr : (updateTracers (updatePrimitives
      { z with t := z.t + z.dt, timeSteps := z.timeSteps + 1 })).tracers = [] := by
    unfold updateTracers
    dsimp only
    rw [show (updatePrimitives
        { z with t := z.t + z.dt, timeSteps := z.timeSteps + 1 }).tracers
      = z.tracers from rfl, htr]
    rfl
  obtain ⟨kU, krho, ku, kp, kT, ktr, kreg, knx, knm, kmf, kmp, kim, kx, kdx,
      kt, kdt⟩ := updateGasProperties_keeps (updateTracers (updatePrimitives
        { z with t := z.t + z.dt, timeSteps := z.timeSteps + 1 }))
  have hGP := updateGasProperties_uniform (updateTracers (updatePrimitives
      { z with t := z.t + z.dt, timeSteps := z.timeSteps + 1 })) reg hgne
    hW2tr hreg hmix
  have hPr := updatePrimitives_uniform
    { z with t := z.t + z.dt, timeSteps := z.timeSteps + 1 } r0 E0 reg hU hG
  unfold postStep
  dsimp only
  split <;>
    exact ⟨kU, ktr.trans hW2tr, knx, kim, kreg, knm, kmf, kmp,
      fun i hi => hGP i hi,
      fun i hi => ⟨(congrFun krho i).trans ((hPr i hi).1),
        (congrFun ku i).trans ((hPr i hi).2.1),
        (congrFun kp i).trans ((hPr i hi).2.2.1),
        (congrFun kT i).trans ((hPr i hi).2.2.2)⟩⟩

/-- With a single slab, the inner `while` of the cell-assignment scan never
advances (`slabIndex < slabs.length - 1` is false). -/
theorem locateSlab_single {K : Type} [LinearOrderedField K] (slab : Slab K)
    (c : K) (fuel : ℕ) (pos : K) (idx : ℕ) :
    locateSlab [slab] c fuel pos idx = (pos, idx) := by
  cases fuel with
  | zero => rfl
  | succ n =>
    unfold locateSlab
    rw [if_neg fun h => absurd h.1 (by simp)]

/-- With a single slab, every cell is assigned that slab. -/
theorem assignCells_single {K : Type} [LinearOrderedField K] (slab : Slab K) :
    ∀ (cs : List K) (pos : K),
      assignCells [slab] cs pos 0 = cs.map fun _ => slab := by
  intro cs
  induction cs with
  | nil => intro pos; rfl
  | cons c cs ih =>
    intro pos
    unfold assignCells
    rw [locateSlab_single]
    dsimp only
    rw [ih]
    rfl

/-- `getD` on a constant-mapped list returns the constant at every in-range
index. -/
theorem getD_map_const {α β : Type} (l : List α) (b d : β) :
    ∀ i, i < l.length → (l.map fun _ => b).getD i d = b := by
  induction l with
  | nil => intro i hi; simp at hi
  | cons a t ih =>
    intro i hi
    cases i with
    | zero => rfl
    | succ n => exact ih n (by simpa using hi)

/-- Characterisation of `initialize` on a single-slab configuration: no
tracers, a single region, and a uniform zero-velocity conservative state with
the ideal-gas density and `E = p/(γ−1)`; in the mixed method the single
material's volume fraction is 1 in every cell. -/
theorem initState_single (slab : Slab ℝ) (nx : ℕ) (cfl fT xtI : ℝ)
    (method : IMethod) (integName : String) (hnx : 0 < nx)
    (hg : 1 < slab.gamma) (hmw : 0 < slab.mw) (hp : 0 < slab.pressure)
    (hT : 0 < slab.temperature) (hlen : 0 < slab.length) :
    (initState (EulerSolver.new nx cfl fT xtI method integName) [slab]).nx = nx ∧
    (initState (EulerSolver.new nx cfl fT xtI method integName) [slab]).tracers = [] ∧
    (initState (EulerSolver.new nx cfl fT xtI method integName) [slab]).regions =
      [{ gamma := slab.gamma, mw := slab.mw, gasId := slab.gasId }] ∧
    (initState (EulerSolver.new nx cfl fT xtI method integName) [slab]).interfaceMethod
      = method ∧
    (∀ i, i < nx →
      (initState (EulerSolver.new nx cfl fT xtI method integName) [slab]).U (3 * i)
        = slab.pressure / (Ru / slab.mw * slab.temperature) ∧
      (initState (EulerSolver.new nx cfl fT xtI method integName) [slab]).U (3 * i + 1)
        = 0 ∧
      (initState (EulerSolver.new nx cfl fT xtI method integName) [slab]).U (3 * i + 2)
        = slab.pressure / (slab.gamma - 1)) ∧
    (∀ i, i < nx →
      (initState (EulerSolver.new nx cfl fT xtI method integName) [slab]).gamma i
        = slab.gamma ∧
      (initState (EulerSolver.new nx cfl fT xtI method integName) [slab]).mw i
        = slab.mw ∧
      (initState (EulerSolver.new nx cfl fT xtI method integName) [slab]).gasId i
        = slab.gasId) ∧
    (method = IMethod.mixed →
      (initState (EulerSolver.new nx cfl fT xtI method integName) [slab]).numMaterials = 1 ∧
      (initState (EulerSolver.new nx cfl fT xtI method integName) [slab]).materialProperties
        = [{ gamma := slab.gamma, mw := slab.mw, gasId := slab.gasId }] ∧
      ∀ i, i < nx →
        (initState (EulerSolver.new nx cfl fT xtI method integName) [slab]).materialFractions i
          = 1) := by
  have hcell : ∀ i, i < nx →
      (assignCells (K := ℝ) [slab]
        ((List.range nx).map fun i : ℕ =>
          ((i : ℝ) + 1 / 2) * ([slab].foldl (fun acc sl => acc + sl.length) 0 / (nx : ℝ)))
        0 0).getD i ⟨"", 0, 0, 0, 0, 0⟩ = slab := by
    intro i hi
    rw [assignCells_single]
    exact getD_map_const _ _ _ i (by rw [List.length_map, List.length_range]; exact hi)
  unfold initState initAssembled
  dsimp only
  refine ⟨rfl, rfl, rfl, rfl, ?_, ?_, ?_⟩
  · intro i hi
    have hnxB : (EulerSolver.new (K := ℝ) nx cfl fT xtI method integName).nx = nx := rfl
    rw [hnxB]
    refine ⟨?_, ?_, ?_⟩
    · show (if 3 * i < 3 * nx then _ else _) = _
      rw [if_pos (by omega), show 3 * i / 3 = i by omega, hcell i hi,
        show 3 * i % 3 = 0 by omega]
    · show (if 3 * i + 1 < 3 * nx then _ else _) = _
      rw [if_pos (by omega), show (3 * i + 1) / 3 = i by omega, hcell i hi,
        show (3 * i + 1) % 3 = 1 by omega]
      exact mul_zero _
    · show (if 3 * i + 2 < 3 * nx then _ else _) = _
      rw [if_pos (by omega), show (3 * i + 2) / 3 = i by omega, hcell i hi,
        show (3 * i + 2) % 3 = 2 by omega]
      ring
  · intro i hi
    have hnxB : (EulerSolver.new (K := ℝ) nx cfl fT xtI method integName).nx = nx := rfl
    rw [hnxB]
    refine ⟨?_, ?_, ?_⟩ <;>
      · show (if i < nx then _ else _) = _
        rw [if_pos hi, hcell i hi]
  · intro hm
    refine ⟨?_, ?_, ?_⟩
    · show (if method = IMethod.mixed then _ else _) = _
      rw [if_pos hm]
      rfl
    · show (if method = IMethod.mixed then _ else _) = _
      rw [if_pos hm]
      rfl
    · intro i hi
      show (if method = IMethod.mixed ∧ _ ∧ _ then _ else _) = _
      rw [if_pos ⟨hm, by simp, by simpa using (by omega : i < nx * 1)⟩]
      rw [show ([slab] : List (Slab ℝ)).length = 1 from rfl, Nat.div_one, Nat.mod_one,
        show (EulerSolver.new (K := ℝ) nx cfl fT xtI method integName).nx = nx from rfl]
      have hL : (0 : ℝ) < [slab].foldl (fun acc sl => acc + sl.length) 0 := by
        simp only [List.foldl_cons, List.foldl_nil]
        linarith
      have hnxR : (0 : ℝ) < (nx : ℝ) := by exact_mod_cast hnx
      have hdx : (0 : ℝ) <
          [slab].foldl (fun acc sl => acc + sl.length) 0 / (nx : ℝ) :=
        div_pos hL hnxR
      have hmin : min (((i : ℝ) + 1) *
            ([slab].foldl (fun acc sl => acc + sl.length) 0 / (nx : ℝ)))
          (prefixLength [slab] 0 + ([slab].getD 0 ⟨"", 0, 0, 0, 0, 0⟩).length) =
          ((i : ℝ) + 1) *
            ([slab].foldl (fun acc sl => acc + sl.length) 0 / (nx : ℝ)) := by
        apply min_eq_left
        have hle : ((i : ℝ) + 1) ≤ (nx : ℝ) := by exact_mod_cast hi
        have hstep := mul_le_mul_of_nonneg_right hle (le_of_lt hdx)
        calc ((i : ℝ) + 1) *
              ([slab].foldl (fun acc sl => acc + sl.length) 0 / (nx : ℝ))
            ≤ (nx : ℝ) *
              ([slab].foldl (fun acc sl => acc + sl.length) 0 / (nx : ℝ)) := hstep
          _ = [slab].foldl (fun acc sl => acc + sl.length) 0 := by
              field_simp
          _ = prefixLength [slab] 0 + ([slab].getD 0 ⟨"", 0, 0, 0, 0, 0⟩).length := by
              unfold prefixLength
              simp
      have hmax : max ((i : ℝ) *
            ([slab].foldl (fun acc sl => acc + sl.length) 0 / (nx : ℝ)))
            (prefixLength [slab] 0) =
          (i : ℝ) * ([slab].foldl (fun acc sl => acc + sl.length) 0 / (nx : ℝ)) :=
        max_eq_left (by
          rw [show prefixLength ([slab] : List (Slab ℝ)) 0 = (0 : ℝ) from rfl]
          positivity)
      rw [hmin, hmax, show ((i : ℝ) + 1) *
            ([slab].foldl (fun acc sl => acc + sl.length) 0 / (nx : ℝ)) -
          (i : ℝ) * ([slab].foldl (fun acc sl => acc + sl.length) 0 / (nx : ℝ)) =
          [slab].foldl (fun acc sl => acc + sl.length) 0 / (nx : ℝ) by ring,
        max_eq_right (le_of_lt hdx)]
      exact div_self (ne_of_gt hdx)

/-- One integrator step (either variant) leaves a uniform zero-velocity state
unchanged: conservative buffer, gas properties, primitives, tracer set and
all static configuration are preserved. -/
theorem stepOf_uniform (k : IntegratorKind) (s : SolverState ℝ) (r0 E0 : ℝ)
    (reg : Region ℝ) (hgne : reg.gamma ≠ 1)
    (hU : ∀ i, i < s.nx → s.U (3 * i) = r0 ∧ s.U (3 * i + 1) = 0 ∧ s.U (3 * i + 2) = E0)
    (hG : ∀ i, i < s.nx → s.gamma i = reg.gamma ∧ s.mw i = reg.mw ∧ s.gasId i = reg.gasId)
    (htr : s.tracers = []) (hreg : s.regions = [reg])
    (hmix : s.interfaceMethod = IMethod.mixed →
      s.numMaterials = 1 ∧ s.materialProperties = [reg] ∧
      ∀ i, i < s.nx → s.materialFractions i = 1) :
    (stepOf k s).U = s.U ∧ (stepOf k s).tracers = [] ∧
    (stepOf k s).nx = s.nx ∧
    (stepOf k s).interfaceMethod = s.interfaceMethod ∧
    (stepOf k s).regions = s.regions ∧
    (stepOf k s).numMaterials = s.numMaterials ∧
    (stepOf k s).materialFractions = s.materialFractions ∧
    (stepOf k s).materialProperties = s.materialProperties ∧
    (∀ i, i < s.nx → (stepOf k s).gamma i = reg.gamma ∧
      (stepOf k s).mw i = reg.mw ∧ (stepOf k s).gasId i = reg.gasId) ∧
    (∀ i, i < s.nx → (stepOf k s).rho i = r0 ∧ (stepOf k s).u i = 0 ∧
      (stepOf k s).p i = (reg.gamma - 1) * E0 ∧
      (stepOf k s).T i = (reg.gamma - 1) * E0 / (r0 * (Ru / reg.mw))) := by
  cases k with
  | RK2 =>
    unfold stepOf rk2Step
    dsimp only
    rw [rk2U2_uniform s.nx s.dx _ s.gamma s.U r0 E0 reg.gamma hU
      fun i hi => (hG i hi).1]
    exact postStep_uniform _ r0 E0 reg hgne hU hG htr hreg hmix
  | SSP =>
    unfold stepOf sspStep
    dsimp only
    rw [sspU4_uniform s.nx s.dx _ s.gamma s.U r0 E0 reg.gamma hU
      fun i hi => (hG i hi).1]
    exact postStep_uniform _ r0 E0 reg hgne hU hG htr hreg hmix

/-- C9.  A single-slab configuration creates zero tracers, and for every
number of integrator steps (RK2 or SSP) the conservative state, the
primitive fields, and the per-cell gas properties remain exactly equal to
the initial condition: the uniform zero-velocity state is a fixed point of
both steps. -/
theorem single_slab_time_invariant (slab : Slab ℝ) (nx : ℕ) (cfl fT xtI : ℝ)
    (method : IMethod) (integName : String)
    (hg : 1 < slab.gamma) (hmw : 0 < slab.mw) (hp : 0 < slab.pressure)
    (hT : 0 < slab.temperature) (hlen : 0 < slab.length) (hnx : 0 < nx)
    (s0 : SolverState ℝ)
    (hinit : initSolver (EulerSolver.new nx cfl fT xtI method integName) [slab]
      = some s0)
    (k : IntegratorKind) (n : ℕ) :
    s0.tracers = [] ∧
    (∀ j, ((stepOf k)^[n] s0).U j = s0.U j) ∧
    (∀ i, i < nx →
      ((stepOf k)^[n] s0).gamma i = s0.gamma i ∧
      ((stepOf k)^[n] s0).mw i = s0.mw i ∧
      ((stepOf k)^[n] s0).gasId i = s0.gasId i ∧
      ((stepOf k)^[n] s0).rho i = s0.rho i ∧
      ((stepOf k)^[n] s0).u i = s0.u i ∧
      ((stepOf k)^[n] s0).p i = s0.p i ∧
      ((stepOf k)^[n] s0).T i = s0.T i) := by
  have hs0 : initState (EulerSolver.new nx cfl fT xtI method integName) [slab] = s0 := by
    unfold initSolver at hinit
    rw [if_neg (by simp)] at hinit
    exact Option.some.inj hinit
  subst hs0
  obtain ⟨cnx, ctr, creg, cim, cU, cG, cmix⟩ :=
    initState_single slab nx cfl fT xtI method integName hnx hg hmw hp hT hlen
  set S := initState (EulerSolver.new (K := ℝ) nx cfl fT xtI method integName) [slab]
    with hS
  set r0 : ℝ := slab.pressure / (Ru / slab.mw * slab.temperature) with hr0
  set E0 : ℝ := slab.pressure / (slab.gamma - 1) with hE0
  set reg : Region ℝ := { gamma := slab.gamma, mw := slab.mw, gasId := slab.gasId }
    with hregdef
  have hgne : reg.gamma ≠ 1 := ne_of_gt hg
  have cG' : ∀ i, i < nx → S.gamma i = reg.gamma ∧ S.mw i = reg.mw ∧
      S.gasId i = reg.gasId := cG
  have cmix' : S.interfaceMethod = IMethod.mixed → S.numMaterials = 1 ∧
      S.materialProperties = [reg] ∧ ∀ i, i < nx → S.materialFractions i = 1 :=
    fun h => cmix (cim.symm.trans h)
  have hPr0 : ∀ i, i < nx → S.rho i = r0 ∧ S.u i = 0 ∧
      S.p i = (reg.gamma - 1) * E0 ∧
      S.T i = (reg.gamma - 1) * E0 / (r0 * (Ru / reg.mw)) := by
    intro i hi
    exact updatePrimitives_uniform
      (initAssembled (EulerSolver.new nx cfl fT xtI method integName) [slab])
      r0 E0 reg cU cG i hi
  have IND : ∀ m,
      ((stepOf k)^[m] S).U = S.U ∧
      ((stepOf k)^[m] S).nx = nx ∧
      (∀ i, i < nx → ((stepOf k)^[m] S).U (3 * i) = r0 ∧
        ((stepOf k)^[m] S).U (3 * i + 1) = 0 ∧
        ((stepOf k)^[m] S).U (3 * i + 2) = E0) ∧
      (∀ i, i < nx → ((stepOf k)^[m] S).gamma i = reg.gamma ∧
        ((stepOf k)^[m] S).mw i = reg.mw ∧
        ((stepOf k)^[m] S).gasId i = reg.gasId) ∧
      ((stepOf k)^[m] S).tracers = [] ∧
      ((stepOf k)^[m] S).regions = [reg] ∧
      (((stepOf k)^[m] S).interfaceMethod = IMethod.mixed →
        ((stepOf k)^[m] S).numMaterials = 1 ∧
        ((stepOf k)^[m] S).materialProperties = [reg] ∧
        ∀ i, i < nx → ((stepOf k)^[m] S).materialFractions i = 1) ∧
      (∀ i, i < nx → ((stepOf k)^[m] S).rho i = r0 ∧
        ((stepOf k)^[m] S).u i = 0 ∧
        ((stepOf k)^[m] S).p i = (reg.gamma - 1) * E0 ∧
        ((stepOf k)^[m] S).T i = (reg.gamma - 1) * E0 / (r0 * (Ru / reg.mw))) := by
    intro m
    induction m with
    | zero =>
      refine ⟨rfl, cnx, cU, cG', ctr, creg, cmix', hPr0⟩
    | succ m ih =>
      obtain ⟨iU, inx, iUv, iGv, itr, ireg, imix, _⟩ := ih
      have hUs : ∀ i, i < ((stepOf k)^[m] S).nx →
          ((stepOf k)^[m] S).U (3 * i) = r0 ∧
          ((stepOf k)^[m] S).U (3 * i + 1) = 0 ∧
          ((stepOf k)^[m] S).U (3 * i + 2) = E0 :=
        fun i hi => iUv i (inx ▸ hi)
      have hGs : ∀ i, i < ((stepOf k)^[m] S).nx →
          ((stepOf k)^[m] S).gamma i = reg.gamma ∧
          ((stepOf k)^[m] S).mw i = reg.mw ∧
          ((stepOf k)^[m] S).gasId i = reg.gasId :=
        fun i hi => iGv i (inx ▸ hi)
      have hmixs : ((stepOf k)^[m] S).interfaceMethod = IMethod.mixed →
          ((stepOf k)^[m] S).numMaterials = 1 ∧
          ((stepOf k)^[m] S).materialProperties = [reg] ∧
          ∀ i, i < ((stepOf k)^[m] S).nx →
            ((stepOf k)^[m] S).materialFractions i = 1 :=
        fun h => ⟨(imix h).1, (imix h).2.1,
          fun i hi => (imix h).2.2 i (inx ▸ hi)⟩
      obtain ⟨sU, str, snx, sim, sreg, snm, smf, smp, sGv, sPv⟩ :=
        stepOf_uniform k ((stepOf k)^[m] S) r0 E0 reg hgne hUs hGs itr ireg hmixs
      rw [Function.iterate_succ_apply']
      refine ⟨sU.trans iU, snx.trans inx, ?_, ?_, str, sreg.trans ireg, ?_, ?_⟩
      · intro i hi
        have := hUs i (inx ▸ hi)
        rw [sU]
        exact this
      · intro i hi
        exact sGv i (inx ▸ hi)
      · intro h
        have h' : ((stepOf k)^[m] S).interfaceMethod = IMethod.mixed :=
          sim.symm.trans h
        exact ⟨snm.trans (imix h').1, smp.trans (imix h').2.1,
          fun i hi => (congrFun smf i).trans ((imix h').2.2 i hi)⟩
      · intro i hi
        exact sPv i (inx ▸ hi)
  obtain ⟨fU, fnx, fUv, fGv, ftr, freg, fmix, fPv⟩ := IND n
  refine ⟨ctr, fun j => congrFun fU j, fun i hi => ?_⟩
  obtain ⟨g1, g2, g3⟩ := fGv i hi
  obtain ⟨p1, p2, p3, p4⟩ := fPv i hi
  obtain ⟨b1, b2, b3⟩ := cG' i hi
  obtain ⟨q1, q2, q3, q4⟩ := hPr0 i hi
  exact ⟨g1.trans b1.symm, g2.trans b2.symm, g3.trans b3.symm,
    p1.trans q1.symm, p2.trans q2.symm, p3.trans q3.symm, p4.trans q4.symm⟩

/-- C9, witness: a two-cell air column stepped three times with RK2. -/
theorem single_slab_time_invariant_witness :
    (initState (EulerSolver.new 2 (2 / 5) (1 / 50) (1 / 10000) IMethod.sharp "RK2")
      [c9Slab]).tracers = [] ∧
    (∀ j, ((stepOf IntegratorKind.RK2)^[3]
        (initState (EulerSolver.new 2 (2 / 5) (1 / 50) (1 / 10000) IMethod.sharp "RK2")
          [c9Slab])).U j =
      (initState (EulerSolver.new 2 (2 / 5) (1 / 50) (1 / 10000) IMethod.sharp "RK2")
        [c9Slab]).U j) ∧
    (∀ i, i < 2 →
      ((stepOf IntegratorKind.RK2)^[3]
          (initState (EulerSolver.new 2 (2 / 5) (1 / 50) (1 / 10000) IMethod.sharp "RK2")
            [c9Slab])).gamma i =
        (initState (EulerSolver.new 2 (2 / 5) (1 / 50) (1 / 10000) IMethod.sharp "RK2")
          [c9Slab]).gamma i ∧
      ((stepOf IntegratorKind.RK2)^[3]
          (initState (EulerSolver.new 2 (2 / 5) (1 / 50) (1 / 10000) IMethod.sharp "RK2")
            [c9Slab])).mw i =
        (initState (EulerSolver.new 2 (2 / 5) (1 / 50) (1 / 10000) IMethod.sharp "RK2")
          [c9Slab]).mw i ∧
      ((stepOf IntegratorKind.RK2)^[3]
          (initState (EulerSolver.new 2 (2 / 5) (1 / 50) (1 / 10000) IMethod.sharp "RK2")
            [c9Slab])).gasId i =
        (initState (EulerSolver.new 2 (2 / 5) (1 / 50) (1 / 10000) IMethod.sharp "RK2")
          [c9Slab]).gasId i ∧
      ((stepOf IntegratorKind.RK2)^[3]
          (initState (EulerSolver.new 2 (2 / 5) (1 / 50) (1 / 10000) IMethod.sharp "RK2")
            [c9Slab])).rho i =
        (initState (EulerSolver.new 2 (2 / 5) (1 / 50) (1 / 10000) IMethod.sharp "RK2")
          [c9Slab]).rho i ∧
      ((stepOf IntegratorKind.RK2)^[3]
          (initState (EulerSolver.new 2 (2 / 5) (1 / 50) (1 / 10000) IMethod.sharp "RK2")
            [c9Slab])).u i =
        (initState (EulerSolver.new 2 (2 / 5) (1 / 50) (1 / 10000) IMethod.sharp "RK2")
          [c9Slab]).u i ∧
      ((stepOf IntegratorKind.RK2)^[3]
          (initState (EulerSolver.new 2 (2 / 5) (1 / 50) (1 / 10000) IMethod.sharp "RK2")
            [c9Slab])).p i =
        (initState (EulerSolver.new 2 (2 / 5) (1 / 50) (1 / 10000) IMethod.sharp "RK2")
          [c9Slab]).p i ∧
      ((stepOf IntegratorKind.RK2)^[3]
          (initState (EulerSolver.new 2 (2 / 5) (1 / 50) (1 / 10000) IMethod.sharp "RK2")
            [c9Slab])).T i =
        (initState (EulerSolver.new 2 (2 / 5) (1 / 50) (1 / 10000) IMethod.sharp "RK2")
          [c9Slab]).T i) :=
  single_slab_time_invariant c9Slab 2 (2 / 5) (1 / 50) (1 / 10000) IMethod.sharp "RK2"
    (by norm_num [c9Slab]) (by norm_num [c9Slab]) (by norm_num [c9Slab])
    (by norm_num [c9Slab]) (by norm_num [c9Slab]) (by norm_num)
    (initState (EulerSolver.new 2 (2 / 5) (1 / 50) (1 / 10000) IMethod.sharp "RK2")
      [c9Slab])
    (by unfold initSolver; rw [if_neg (by simp)])
    IntegratorKind.RK2 3

/-! ## Claim C10 -/

/-- The final state of the fuel-indexed run loop does not depend on the wall
clock or on the progress bookkeeping: the clock gates only the emission of
progress values, never the state update. -/
theorem runLoop_clock_independent :
    ∀ (fuel : ℕ) (c1 c2 : ℕ → ℤ) (l1 l2 : ℤ) (k1 k2 : ℕ) (s : SolverState ℝ),
      (runLoop c1 fuel l1 k1 s).1 = (runLoop c2 fuel l2 k2 s).1 := by
  intro fuel
  induction fuel with
  | zero => intro c1 c2 l1 l2 k1 k2 s; rfl
  | succ n ih =>
    intro c1 c2 l1 l2 k1 k2 s
    unfold runLoop
    by_cases h : s.t < s.finalTime
    · rw [if_pos h, if_pos h]
      dsimp only
      split <;> split <;> exact ih c1 c2 _ _ _ _ _
    · rw [if_neg h, if_neg h]

/-- C10.  Two runs from the same state (hence the same configuration) with
different wall clocks produce identical final solver states — in particular
bit-identical snapshot sequences: every numerical output of `initialize`,
`step` and the run loop is a deterministic function of the configuration,
independent of progress-callback timing. -/
theorem run_deterministic (fuel : ℕ) (c1 c2 : ℕ → ℤ) (s : SolverState ℝ) :
    (run fuel c1 s).1 = (run fuel c2 s).1 ∧
    (run fuel c1 s).1.xtData = (run fuel c2 s).1.xtData := by
  have h := runLoop_clock_independent fuel c1 c2 (c1 0) (c2 0) 1 1 s
  exact ⟨h, congrArg SolverState.xtData h⟩

end STCalc
